import Mathlib

/-!
# RLC configuration helpers, arrays of optional elements and the RLC entities

A shallow embedding of

* `include/srsgnb/rlc/rlc_config.h` : the sequence-number field sizes, `cardinality`
  and `window_size`, the header fields and the configuration structures;
* `include/srsgnb/adt/optional_array.h` : `base_optional_span`, `base_optional_vector`,
  `optional_array`, `optional_vector` and `split_optional_span`;
* `include/srsgnb/ran/cu_types.h` : the PDU session and QoS flow identifiers;
* `lib/rlc/rlc_um_entity.h` : the constructor of the UM entity;

and, for the entities whose code is not among the sources, of the AM Tx entity and the UM Tx
and Rx entities as the specification describes them.

Conventions of the embedding.

* `uint16_t`, `uint32_t` and `size_t` values are natural numbers; every conversion and every
  arithmetic step that can leave the range of its C++ type is written with its wrap-around
  (a reduction modulo `2^16`, `2^32` or `2^64`; for the decrement of a `size_t`, the step
  from 0 to `2^64 - 1`).
* A call stopped by a failed assertion returns `none`.
* `optional<T>` is `Option T`; a container of optionals is a `List (Option T)`.
* Loops are written with a fuel argument; running out of fuel is `none`, and the theorems
  show that the fuel handed over by the callers always suffices.
-/

namespace srsgnb

/-! ## Machine integers -/

/-- Conversion of an integer value to `uint16_t`. -/
def to_uint16 (x : Int) : Nat := (x % 2 ^ 16).toNat

/-- Conversion of an integer value to `uint32_t`. -/
def to_uint32 (x : Int) : Nat := (x % 2 ^ 32).toNat

/-- Value of an `int` expression as 32-bit two's complement. -/
def to_int32 (x : Int) : Int := (x + 2 ^ 31) % 2 ^ 32 - 2 ^ 31

/-- Number of values of `size_t` (64 bits). -/
def SIZE_T_CARD : Nat := 2 ^ 64

/-- Modelled from the spec: the macros `srsgnb_assert` and `srsran_assert`
(`srsgnb/support/srsgnb_assert.h` and `srsran_assert.h` are not among the sources).
An assertion whose condition is false stops the call: no value is returned. -/
def srsgnb_assert {α : Type} (cond : Bool) (k : Option α) : Option α :=
  if cond then k else none

/-! ## `rlc_config.h` -/

/-- RLC UM NR sequence number field: `enum class rlc_um_sn_size : uint16_t`. -/
inductive rlc_um_sn_size where
  | size6bits
  | size12bits
  deriving DecidableEq, Repr

/-- RLC AM NR sequence number field: `enum class rlc_am_sn_size : uint16_t`. -/
inductive rlc_am_sn_size where
  | size12bits
  | size18bits
  deriving DecidableEq, Repr

/-- The overload `to_number(rlc_um_sn_size)`: `static_cast<uint16_t>(sn_size)`. -/
def rlc_um_sn_size.to_number : rlc_um_sn_size → Nat
  | .size6bits => 6
  | .size12bits => 12

/-- The overload `to_number(rlc_am_sn_size)`: `static_cast<uint16_t>(sn_size)`. -/
def rlc_am_sn_size.to_number : rlc_am_sn_size → Nat
  | .size12bits => 12
  | .size18bits => 18

/-- Source: `cardinality(uint16_t sn_size)`:
`srsgnb_assert(sn_size < 32, ...); return (1 << sn_size);`.
The shift is an `int` expression, its value is converted to the `uint32_t` return type. -/
def cardinality (sn_size : Nat) : Option Nat :=
  srsgnb_assert (decide (sn_size < 32))
    (some (to_uint32 (to_int32 (1 * 2 ^ sn_size))))

/-- Source: `window_size(uint16_t sn_size)`: `return cardinality(sn_size - 1);`.
`sn_size - 1` is an `int` expression, converted to the `uint16_t` parameter of `cardinality`. -/
def window_size (sn_size : Nat) : Option Nat :=
  cardinality (to_uint16 ((sn_size : Int) - 1))

/-! ## `optional_array.h`: `base_optional_span` -/

/-- The data members of `detail::base_optional_span<Vec>`: `nof_elems`, documented as the
number of present fields, and `vec`, the container of optional elements. -/
structure base_optional_span (T : Type) where
  nof_elems : Nat
  vec : List (Option T)
  deriving DecidableEq, Repr

namespace base_optional_span

variable {T : Type}

/-- Source: `contains(idx)`: `idx < vec.size() and vec[idx].has_value()`. -/
def contains (s : base_optional_span T) (idx : Nat) : Bool :=
  if h : idx < s.vec.length then (s.vec[idx]).isSome else false

/-- Source: `operator[](idx)`: `*vec[idx]`. Dereferencing outside the container or
dereferencing an absent element is undefined in C++; it is `none` here. -/
def index (s : base_optional_span T) (idx : Nat) : Option T :=
  if h : idx < s.vec.length then s.vec[idx] else none

/-- Source: `empty()`: `nof_elems == 0`. -/
def empty (s : base_optional_span T) : Bool := s.nof_elems == 0

/-- Source: `size()`: `nof_elems`. -/
def size (s : base_optional_span T) : Nat := s.nof_elems

/-- Source: `iterator_impl::operator++`:
`while (++idx < parent->vec.size() and not parent->contains(idx)) {}`.
An iterator on `s` is its `idx`; the result is the `idx` after the loop. -/
def iterator_incr (s : base_optional_span T) : Nat → Nat → Option Nat
  | 0, _ => none
  | fuel + 1, idx =>
    let idx1 := (idx + 1) % SIZE_T_CARD
    if decide (idx1 < s.vec.length) && !(s.contains idx1) then iterator_incr s fuel idx1
    else some idx1

/-- Source: the constructor `iterator_impl(parent_, idx_)`:
`if (idx < parent->vec.size() and not parent->contains(idx)) { ++(*this); }`. -/
def iterator_ctor (s : base_optional_span T) (fuel idx : Nat) : Option Nat :=
  if decide (idx < s.vec.length) && !(s.contains idx) then iterator_incr s fuel idx
  else some idx

/-- Source: `begin()`: `iterator{this, 0}`. -/
def begin (s : base_optional_span T) (fuel : Nat) : Option Nat :=
  iterator_ctor s fuel 0

/-- Source: `end()`: `iterator{this, vec.size()}`. -/
def end_ (s : base_optional_span T) (fuel : Nat) : Option Nat :=
  iterator_ctor s fuel s.vec.length

/-- The loop `for (; it != e; ++it)` of a traversal of `s` that does not change `s`:
the list of the positions `it.idx` at which the body runs. Two iterators on the same
container are equal when their `idx` are equal. -/
def traverse_loop (s : base_optional_span T) (fuel_incr e : Nat) : Nat → Nat → Option (List Nat)
  | 0, _ => none
  | fuel + 1, it =>
    if it = e then some []
    else
      match iterator_incr s fuel_incr it with
      | none => none
      | some it1 => (traverse_loop s fuel_incr e fuel it1).map (fun l => it :: l)

/-- The positions visited by `for (it = s.begin(); it != s.end(); ++it)`, in the order of
the visit. Every loop gets `vec.size() + 1` steps of fuel. -/
def visited (s : base_optional_span T) : Option (List Nat) :=
  let fuel := s.vec.length + 1
  match s.begin fuel, s.end_ fuel with
  | some b, some e => traverse_loop s fuel e fuel b
  | _, _ => none

/-- The range-based loop `for (auto& e : s)`: each visited position together with the
element `*it`, which is `operator[](idx)`. -/
def range_for (s : base_optional_span T) : Option (List (Nat × Option T)) :=
  (visited s).map (fun l => l.map (fun i => (i, s.index i)))

/-- The loop of `find_first_empty`:
`for (size_t i = start_guess; i < vec.size(); ++i) { if (not vec[i].has_value()) return i; }`
followed by `return vec.size();`. -/
def find_first_empty_loop (s : base_optional_span T) : Nat → Nat → Option Nat
  | 0, _ => none
  | fuel + 1, i =>
    if h : i < s.vec.length then
      if !(s.vec[i]).isSome then some i
      else find_first_empty_loop s fuel ((i + 1) % SIZE_T_CARD)
    else some s.vec.length

/-- Source: `find_first_empty(start_guess)`:
`if (nof_elems == vec.size()) return vec.size();` and then the loop. -/
def find_first_empty (s : base_optional_span T) (start_guess : Nat) : Option Nat :=
  if s.nof_elems = s.vec.length then some s.vec.length
  else find_first_empty_loop s (s.vec.length + 1) start_guess

end base_optional_span

/-! ## `optional_array.h`: `base_optional_vector` and `optional_array` -/

namespace base_optional_vector

open base_optional_span

variable {T : Type}

/-- The loop of `clear()`: `for (auto& e : *this) { e.reset(); }`. The iterator of
`base_optional_span` dereferences to the element (`T&`, `*vec[idx]`), so the body calls
`T::reset` on the element held by the optional; `reset` is that member function of `T`. -/
def clear_loop (reset : T → T) (fuel_incr e : Nat) :
    Nat → base_optional_span T → Nat → Option (base_optional_span T)
  | 0, _, _ => none
  | fuel + 1, s, it =>
    if it = e then some s
    else
      let s1 : base_optional_span T := { s with vec := s.vec.set it ((s.index it).map reset) }
      match iterator_incr s1 fuel_incr it with
      | none => none
      | some it1 => clear_loop reset fuel_incr e fuel s1 it1

/-- Source: `clear()`: `this->nof_elems = 0; for (auto& e : *this) { e.reset(); }`. -/
def clear (reset : T → T) (s : base_optional_span T) : Option (base_optional_span T) :=
  let s0 : base_optional_span T := { s with nof_elems := 0 }
  let fuel := s0.vec.length + 1
  match s0.begin fuel, s0.end_ fuel with
  | some b, some e => clear_loop reset fuel e fuel s0 b
  | _, _ => none

/-- Source: `erase(size_t idx)`: the bound assertion, then
`if (this->contains(idx)) { this->nof_elems--; this->vec[idx].reset(); }`.
The decrement of the `size_t` member wraps from 0 to `2^64 - 1`. -/
def erase (s : base_optional_span T) (idx : Nat) : Option (base_optional_span T) :=
  srsgnb_assert (decide (idx < s.vec.length))
    (some (if s.contains idx then
        { nof_elems := (if s.nof_elems = 0 then SIZE_T_CARD - 1 else s.nof_elems - 1),
          vec := s.vec.set idx none }
      else s))

/-- Source: `insert(idx, u)`: the bound assertion, then
`this->nof_elems += this->contains(idx) ? 0 : 1; this->vec[idx] = std::forward<U>(u);`. -/
def insert (s : base_optional_span T) (idx : Nat) (u : T) : Option (base_optional_span T) :=
  srsgnb_assert (decide (idx < s.vec.length))
    (some { nof_elems := (s.nof_elems + (if s.contains idx then 0 else 1)) % SIZE_T_CARD,
            vec := s.vec.set idx (some u) })

/-- Source: `emplace(idx, args...)`: the bound assertion, then
`this->nof_elems += this->contains(idx) ? 0 : 1; this->vec[idx].emplace(args...);`.
`u` is the element constructed from `args`. -/
def emplace (s : base_optional_span T) (idx : Nat) (u : T) : Option (base_optional_span T) :=
  srsgnb_assert (decide (idx < s.vec.length))
    (some { nof_elems := (s.nof_elems + (if s.contains idx then 0 else 1)) % SIZE_T_CARD,
            vec := s.vec.set idx (some u) })

end base_optional_vector

namespace optional_array

open base_optional_span base_optional_vector

variable {T : Type}

/-- The default-constructed `optional_array<T, N>`: `nof_elems = 0` and `N` disengaged
optionals. -/
def default_ctor (T : Type) (N : Nat) : base_optional_span T :=
  { nof_elems := 0, vec := List.replicate N none }

/-- A call of one of the modifiers `insert`, `emplace`, `erase`. -/
inductive modifier (T : Type) where
  | insert (idx : Nat) (u : T)
  | emplace (idx : Nat) (u : T)
  | erase (idx : Nat)

/-- One modifier call on `s`. -/
def call (s : base_optional_span T) : modifier T → Option (base_optional_span T)
  | .insert idx u => base_optional_vector.insert s idx u
  | .emplace idx u => base_optional_vector.emplace s idx u
  | .erase idx => base_optional_vector.erase s idx

/-- A sequence of modifier calls, stopped (`none`) by the first failed assertion. -/
def calls (s : base_optional_span T) : List (modifier T) → Option (base_optional_span T)
  | [] => some s
  | m :: ms => (call s m).bind (fun s1 => calls s1 ms)

/-- A sequence of `insert(idx, value)` calls. -/
def inserts (s : base_optional_span T) : List (Nat × T) → Option (base_optional_span T)
  | [] => some s
  | (idx, u) :: l => (base_optional_vector.insert s idx u).bind (fun s1 => inserts s1 l)

end optional_array

/-! ## `optional_array.h`: `split_optional_span` -/

/-- The data members of `detail::base_split_optional_span<T>`: the element array `ptr`, the
presence flags `present_ptr` and the common length `len` of the two arrays. -/
structure base_split_optional_span (T : Type) where
  ptr : List T
  present_ptr : List Bool
  len : Nat

namespace base_split_optional_span

variable {T : Type}

/-- Source: `contains(idx)`: `idx < len and present_ptr[idx]`. Reading a flag outside the
flag array is undefined in C++; it is `false` here. -/
def contains (s : base_split_optional_span T) (idx : Nat) : Bool :=
  decide (idx < s.len) && s.present_ptr.getD idx false

/-- Source: `iterator_impl::operator++`:
`while (++idx < parent->len and not parent->contains(idx)) {}`. -/
def iterator_incr (s : base_split_optional_span T) : Nat → Nat → Option Nat
  | 0, _ => none
  | fuel + 1, idx =>
    let idx1 := (idx + 1) % SIZE_T_CARD
    if decide (idx1 < s.len) && !(s.contains idx1) then iterator_incr s fuel idx1
    else some idx1

/-- Source: the constructor `iterator_impl(parent_, idx_)`:
`if (idx < parent->len and not parent->contains(idx)) { ++(*this); }`. -/
def iterator_ctor (s : base_split_optional_span T) (fuel idx : Nat) : Option Nat :=
  if decide (idx < s.len) && !(s.contains idx) then iterator_incr s fuel idx
  else some idx

/-- Source: `begin()`: `iterator(this, 0)`. -/
def begin (s : base_split_optional_span T) (fuel : Nat) : Option Nat :=
  iterator_ctor s fuel 0

/-- Source: `find_first_empty(start_guess)`: `return begin().get_idx();`, where `get_idx()`
returns the `idx` of the iterator. The constructor of `begin()` gets `len + 1` steps of
fuel. -/
def find_first_empty (s : base_split_optional_span T) (_start_guess : Nat) : Option Nat :=
  s.begin (s.len + 1)

end base_split_optional_span

/-! ## Properties the theorems speak about -/

namespace base_optional_span

variable {T : Type}

/-- The elements `*it` met by `for (auto& e : s)`, in the order of the traversal. -/
def elements (s : base_optional_span T) : Option (List (Option T)) :=
  (range_for s).map (fun l => l.map Prod.snd)

/-- The number of engaged optionals of a container. -/
def nof_present (vec : List (Option T)) : Nat := vec.countP Option.isSome

/-- The meaning the source gives to the member `nof_elems` ("Number of present fields"),
for a container whose length is a `size_t` value. -/
def nof_elems_ok (s : base_optional_span T) : Prop :=
  s.nof_elems = nof_present s.vec ∧ s.vec.length < SIZE_T_CARD

end base_optional_span

/-! ## `optional_array.h`: `optional_vector` -/

namespace optional_vector

open base_optional_span

variable {T : Type}

/-- The call `vec.resize(n)` of `std::vector<optional<T>>`. `max_size` is the value of
`vec.max_size()`, fixed by the C++ library: for `n` above it `resize` throws
`std::length_error` and the call does not return (`none`). Otherwise the first `n` elements
are kept, and when `n` exceeds the length, disengaged optionals are appended up to length
`n`. (A failed allocation is outside the model.) -/
def resize (max_size : Nat) (vec : List (Option T)) (n : Nat) : Option (List (Option T)) :=
  if max_size < n then none
  else if n ≤ vec.length then some (vec.take n)
  else some (vec ++ List.replicate (n - vec.length) none)

/-- Source: `optional_vector::insert(idx, u)`:
`if (idx >= this->vec.size()) { this->vec.resize(idx + 1); } base_t::insert(idx, u);`.
`idx + 1` is a `size_t` sum. -/
def insert (max_size : Nat) (s : base_optional_span T) (idx : Nat) (u : T) :
    Option (base_optional_span T) :=
  if s.vec.length ≤ idx then
    match resize max_size s.vec ((idx + 1) % SIZE_T_CARD) with
    | none => none
    | some vec1 => base_optional_vector.insert { nof_elems := s.nof_elems, vec := vec1 } idx u
  else base_optional_vector.insert s idx u

/-- Source: `optional_vector::emplace(idx, args...)`:
`if (idx >= this->vec.size()) { this->vec.resize(idx + 1); } base_t::emplace(idx, args...);`.
`u` is the element constructed from `args`. -/
def emplace (max_size : Nat) (s : base_optional_span T) (idx : Nat) (u : T) :
    Option (base_optional_span T) :=
  if s.vec.length ≤ idx then
    match resize max_size s.vec ((idx + 1) % SIZE_T_CARD) with
    | none => none
    | some vec1 => base_optional_vector.emplace { nof_elems := s.nof_elems, vec := vec1 } idx u
  else base_optional_vector.emplace s idx u

end optional_vector

/-! ## `rlc_config.h`: header fields -/

/-- The enumeration `rlc_dc_field : unsigned`, `control = 0b00`, `data = 0b01`. -/
inductive rlc_dc_field where
  | control
  | data
  deriving DecidableEq, Repr

/-- The overload `to_number(rlc_dc_field)`: `static_cast<unsigned>(dc)`. -/
def rlc_dc_field.to_number : rlc_dc_field → Nat
  | .control => 0
  | .data => 1

/-- The enumeration `rlc_si_field : unsigned`, `full_sdu = 0b00`, `first_segment = 0b01`,
`last_segment = 0b10`, `middle_segment = 0b11`. -/
inductive rlc_si_field where
  | full_sdu
  | first_segment
  | last_segment
  | middle_segment
  deriving DecidableEq, Repr

/-- The overload `to_number(rlc_si_field)`: `static_cast<uint16_t>(si_field)`. -/
def rlc_si_field.to_number : rlc_si_field → Nat
  | .full_sdu => 0
  | .first_segment => 1
  | .last_segment => 2
  | .middle_segment => 3

/-- The table `options` of `fmt::formatter<rlc_si_field>::format`. -/
def rlc_si_field.options : List String := ["full", "first", "last", "middle"]

/-- Source: `fmt::formatter<rlc_si_field>::format`: the text written is
`options[to_number(si)]`. An index outside the table is undefined in C++; it is `none`
here. -/
def rlc_si_field.format (si : rlc_si_field) : Option String :=
  rlc_si_field.options[si.to_number]?

/-! ## `cu_types.h` -/

/-- The constant `MAX_NOF_PDU_SESSIONS` (`uint16_t`). -/
def MAX_NOF_PDU_SESSIONS : Nat := 256

/-- The scoped enumeration `pdu_session_id_t : uint16_t`. A value of the type is any value
of its underlying type; `val` is that value. -/
structure pdu_session_id_t where
  val : Nat
  deriving DecidableEq, Repr

/-- The enumerator `pdu_session_id_t::min = 0`. -/
def pdu_session_id_t.min : pdu_session_id_t := ⟨0⟩

/-- The enumerator `pdu_session_id_t::max = MAX_NOF_PDU_SESSIONS - 1`. -/
def pdu_session_id_t.max : pdu_session_id_t := ⟨MAX_NOF_PDU_SESSIONS - 1⟩

/-- The enumerator `pdu_session_id_t::invalid = MAX_NOF_PDU_SESSIONS`. -/
def pdu_session_id_t.invalid : pdu_session_id_t := ⟨MAX_NOF_PDU_SESSIONS⟩

/-- Source: `pdu_session_id_to_uint(id)`: `static_cast<uint16_t>(id)`. -/
def pdu_session_id_to_uint (id : pdu_session_id_t) : Nat := id.val % 2 ^ 16

/-- Source: `uint_to_pdu_session_id(uint16_t idx)`: `static_cast<pdu_session_id_t>(idx)`.
The argument is converted to the `uint16_t` parameter. -/
def uint_to_pdu_session_id (idx : Nat) : pdu_session_id_t := ⟨idx % 2 ^ 16⟩

/-- The constant `MAX_NOF_QOS_FLOWS` (`uint8_t`). -/
def MAX_NOF_QOS_FLOWS : Nat := 64

/-- The scoped enumeration `qos_flow_id_t : uint8_t`; `val` is the underlying value. -/
structure qos_flow_id_t where
  val : Nat
  deriving DecidableEq, Repr

/-- The enumerator `qos_flow_id_t::min = 0`. -/
def qos_flow_id_t.min : qos_flow_id_t := ⟨0⟩

/-- The enumerator `qos_flow_id_t::max = MAX_NOF_QOS_FLOWS - 1`. -/
def qos_flow_id_t.max : qos_flow_id_t := ⟨MAX_NOF_QOS_FLOWS - 1⟩

/-- The enumerator `qos_flow_id_t::invalid = MAX_NOF_QOS_FLOWS`. -/
def qos_flow_id_t.invalid : qos_flow_id_t := ⟨MAX_NOF_QOS_FLOWS⟩

/-- Source: `qos_flow_id_to_uint(id)`: `static_cast<uint8_t>(id)`. -/
def qos_flow_id_to_uint (id : qos_flow_id_t) : Nat := id.val % 2 ^ 8

/-- Source: `uint_to_qos_flow_id(uint8_t idx)`: `static_cast<qos_flow_id_t>(idx)`.
The argument is converted to the `uint8_t` parameter. -/
def uint_to_qos_flow_id (idx : Nat) : qos_flow_id_t := ⟨idx % 2 ^ 8⟩

/-! ## `rlc_config.h`: configuration structures -/

/-- The structure `rlc_rx_um_config`. -/
structure rlc_rx_um_config where
  sn_field_length : rlc_um_sn_size
  t_reassembly_ms : Int
  deriving DecidableEq, Repr

/-- The structure `rlc_tx_um_config`. -/
structure rlc_tx_um_config where
  sn_field_length : rlc_um_sn_size
  deriving DecidableEq, Repr

/-- The structure `rlc_um_config`. -/
structure rlc_um_config where
  rx : rlc_rx_um_config
  tx : rlc_tx_um_config
  deriving DecidableEq, Repr

/-- The structure `rlc_tx_am_config`. -/
structure rlc_tx_am_config where
  sn_field_length : rlc_am_sn_size
  t_poll_retx : Int
  max_retx_thresh : Nat
  poll_pdu : Int
  poll_byte : Int
  deriving DecidableEq, Repr

/-! ## `rlc_um_entity.h` -/

/-- Modelled from the spec: the types `du_ue_index_t` and `lcid_t` that identify the bearer
(their declarations are not among the sources); a value is a number. -/
abbrev du_ue_index_t : Type := Nat

/-- Modelled from the spec: the type `lcid_t`, see `du_ue_index_t`. -/
abbrev lcid_t : Type := Nat

/-- Modelled from the spec: the class `rlc_tx_um_entity` (`rlc_tx_um_entity.h` is not among
the sources). For the composition of the UM entity the object is the record of the
arguments its constructor is called with; the notifier references are left out. -/
structure rlc_tx_um_entity where
  du_index : du_ue_index_t
  lcid : lcid_t
  config : rlc_tx_um_config
  deriving DecidableEq, Repr

/-- Modelled from the spec: the class `rlc_rx_um_entity` (`rlc_rx_um_entity.h` is not among
the sources), the record of the arguments its constructor is called with; the notifier and
timer references are left out. -/
structure rlc_rx_um_entity where
  du_index : du_ue_index_t
  lcid : lcid_t
  config : rlc_rx_um_config
  deriving DecidableEq, Repr

/-- Modelled from the spec: the interface `rlc_tx_entity` behind the `tx` pointer of the
base entity, with one implementation per mode (tm/um/am). -/
inductive rlc_tx_entity where
  | tm
  | um (e : rlc_tx_um_entity)
  | am
  deriving DecidableEq, Repr

/-- Modelled from the spec: the interface `rlc_rx_entity` behind the `rx` pointer of the
base entity, with one implementation per mode (tm/um/am). -/
inductive rlc_rx_entity where
  | tm
  | um (e : rlc_rx_um_entity)
  | am
  deriving DecidableEq, Repr

/-- A line written by `logger.log_info` in the constructor of `rlc_um_entity`: the message
"RLC TX UM configured" with `config.tx`, or "RLC RX UM configured" with `config.rx`. -/
inductive rlc_log_entry where
  | tx_um_configured (cfg : rlc_tx_um_config)
  | rx_um_configured (cfg : rlc_rx_um_config)
  deriving DecidableEq, Repr

/-- Modelled from the spec: the class `rlc_base_entity` (`rlc_base_entity.h` is not among
the sources). It identifies the bearer by `du_index` and `lcid` and holds the owning
pointers `tx` and `rx` (`none` is the null pointer) and the logger. -/
structure rlc_base_entity where
  du_index : du_ue_index_t
  lcid : lcid_t
  tx : Option rlc_tx_entity
  rx : Option rlc_rx_entity
  logger : List rlc_log_entry
  deriving DecidableEq, Repr

/-- Modelled from the spec: the constructor `rlc_base_entity(du_index, lcid)`: it stores the
two identifiers; `tx` and `rx` are null and nothing is logged yet. -/
def rlc_base_entity.rlc_base_entity (du_index : du_ue_index_t) (lcid : lcid_t) :
    rlc_base_entity :=
  { du_index := du_index, lcid := lcid, tx := none, rx := none, logger := [] }

/-- Source: the constructor `rlc_um_entity::rlc_um_entity(du_index, lcid, config, ...)`:
the base constructor, then
`tx = std::make_unique<rlc_tx_um_entity>(du_index, lcid, config.tx, ...)`, a log line,
`rx = std::make_unique<rlc_rx_um_entity>(du_index, lcid, config.rx, ...)`, a log line. -/
def rlc_um_entity.rlc_um_entity (du_index : du_ue_index_t) (lcid : lcid_t)
    (config : rlc_um_config) : rlc_base_entity :=
  let e0 := rlc_base_entity.rlc_base_entity du_index lcid
  let e1 := { e0 with tx := some (rlc_tx_entity.um
              { du_index := du_index, lcid := lcid, config := config.tx }) }
  let e2 := { e1 with logger := e1.logger ++ [rlc_log_entry.tx_um_configured config.tx] }
  let e3 := { e2 with rx := some (rlc_rx_entity.um
              { du_index := du_index, lcid := lcid, config := config.rx }) }
  { e3 with logger := e3.logger ++ [rlc_log_entry.rx_um_configured config.rx] }

/-! ## The AM Tx entity, modelled from the spec

The AM Tx entity is not among the sources. The definitions of this section follow the
specification: data model (sequence number, Tx PDU record, transmission window) and
component design of the AM Tx entity (`submit_sdu`, `pull_pdu`, `handle_status_report`,
expiry of `t_poll_retx`). Poll bits and the timers themselves do not take part in the
assignment of sequence numbers and are left out; the header lengths, which the
specification does not fix, are parameters. -/

/-- Modelled from the spec: the sequence-number arithmetic module (not among the sources),
"distance computation" over a field of `m` values: the number of steps from SN `a` forward
to SN `b`, modulo `m`. -/
def sn_distance (m a b : Nat) : Nat := (b + m - a) % m

/-- Modelled from the spec: the Tx PDU record of the AM Tx buffer ("SN, byte payload, poll
bit, retransmission count, is-segment info"); kept here are the SN, the
retransmission-pending mark and the retransmission count. -/
structure rlc_tx_am_pdu_record where
  sn : Nat
  retx_pending : Bool
  retx_count : Nat
  deriving DecidableEq, Repr

/-- Modelled from the spec: the state of the AM Tx entity: the lower edge `TX_Next_Ack` of
the transmission window, the next SN to assign `TX_Next`, the Tx buffer of unacknowledged
records in the order of SN assignment, the byte lengths of the SDUs pending first
transmission, the number of bytes of the SDU under segmentation that are still to be sent,
and the bearer failure `MaxRetransmissionReached`. -/
structure rlc_tx_am_state where
  tx_next_ack : Nat
  tx_next : Nat
  tx_buffer : List rlc_tx_am_pdu_record
  sdu_queue : List Nat
  segmenting : Nat
  failed : Bool
  deriving DecidableEq, Repr

/-- Modelled from the spec: the events that drive the AM Tx entity. A status report carries
`ACK_SN` and the NACKed SNs. -/
inductive rlc_tx_am_event where
  | submit_sdu (len : Nat)
  | pull_pdu (max_bytes : Nat)
  | handle_status_report (ack_sn : Nat) (nack_sns : List Nat)
  | t_poll_retx_expiry
  deriving DecidableEq, Repr

namespace rlc_tx_am_entity

/-- Modelled from the spec: the AM Tx entity after construction. -/
def initial : rlc_tx_am_state :=
  { tx_next_ack := 0, tx_next := 0, tx_buffer := [], sdu_queue := [], segmenting := 0,
    failed := false }

/-- Modelled from the spec: `submit_sdu(bytes)` "appends SDU to the pending queue"
(default policy: unbounded). -/
def submit_sdu (s : rlc_tx_am_state) (len : Nat) : rlc_tx_am_state :=
  { s with sdu_queue := s.sdu_queue ++ [len] }

/-- Modelled from the spec: the retransmission of the oldest retransmission-pending record
("highest-priority first by SN age"): its mark is cleared and its retransmission count
grows by one. -/
def retransmit_oldest : List rlc_tx_am_pdu_record → List rlc_tx_am_pdu_record
  | [] => []
  | r :: rs =>
    if r.retx_pending then
      { sn := r.sn, retx_pending := false, retx_count := r.retx_count + 1 } :: rs
    else r :: retransmit_oldest rs

/-- Modelled from the spec: "exceeding `max_retx_thresh` fails the bearer": the
retransmission of the oldest pending record takes its count above the threshold. -/
def retx_exceeds (max_retx_thresh : Nat) : List rlc_tx_am_pdu_record → Bool
  | [] => false
  | r :: rs =>
    if r.retx_pending then decide (max_retx_thresh < r.retx_count + 1)
    else retx_exceeds max_retx_thresh rs

/-- Modelled from the spec: `pull_pdu(max_bytes)`, "produces at most one PDU", in the
priority order "(1) retransmission of a NACKed/expired segment; (2) a new segment of the
oldest un-segmented SDU inside the transmission window". An SDU is "assigned exactly one SN
at segmentation start", and "new SDUs may only be assigned an SN inside this window", which
is `[TX_Next_Ack, TX_Next_Ack + window_size)`; "if full, Tx stalls". `m` is the number of
SN values, `w` the window size; a PDU without segment offset has `hdr_base` header bytes, a
segment has `so_len` more. -/
def pull_pdu (m w max_retx_thresh hdr_base so_len : Nat) (s : rlc_tx_am_state)
    (max_bytes : Nat) : rlc_tx_am_state :=
  if s.tx_buffer.any (fun r => r.retx_pending) then
    { s with tx_buffer := retransmit_oldest s.tx_buffer,
             failed := s.failed || retx_exceeds max_retx_thresh s.tx_buffer }
  else if 0 < s.segmenting then
    if max_bytes ≤ hdr_base + so_len then s
    else { s with segmenting := s.segmenting - (max_bytes - (hdr_base + so_len)) }
  else
    match s.sdu_queue with
    | [] => s
    | len :: queue =>
      if sn_distance m s.tx_next_ack s.tx_next < w then
        if hdr_base + len ≤ max_bytes then
          { s with tx_next := (s.tx_next + 1) % m,
                   tx_buffer := s.tx_buffer ++
                     [{ sn := s.tx_next, retx_pending := false, retx_count := 0 }],
                   sdu_queue := queue, segmenting := 0 }
        else if max_bytes ≤ hdr_base + so_len then s
        else
          { s with tx_next := (s.tx_next + 1) % m,
                   tx_buffer := s.tx_buffer ++
                     [{ sn := s.tx_next, retx_pending := false, retx_count := 0 }],
                   sdu_queue := queue,
                   segmenting := len - (max_bytes - (hdr_base + so_len)) }
      else s

/-- Modelled from the spec: `handle_status_report(status)` "advances TX_Next_Ack to ACK_SN;
removes acknowledged records from the Tx buffer; marks NACKed SNs retransmission-pending".
The acknowledged records are those whose SN lies before `ACK_SN`, counted from the old
`TX_Next_Ack`; `ACK_SN` is the value of an SN field, a number below `m`. -/
def handle_status_report (m : Nat) (s : rlc_tx_am_state) (ack_sn : Nat)
    (nack_sns : List Nat) : rlc_tx_am_state :=
  { s with
    tx_next_ack := ack_sn % m,
    tx_buffer :=
      (s.tx_buffer.filter (fun r =>
        decide (sn_distance m s.tx_next_ack (ack_sn % m) ≤ sn_distance m s.tx_next_ack r.sn))).map
        (fun r => if r.sn ∈ nack_sns then
          { sn := r.sn, retx_pending := true, retx_count := r.retx_count } else r) }

/-- Modelled from the spec: expiry of `t_poll_retx` "marks all unacknowledged PDUs
retransmission-pending". -/
def t_poll_retx_expiry (s : rlc_tx_am_state) : rlc_tx_am_state :=
  { s with
    tx_buffer := s.tx_buffer.map
      (fun r => { sn := r.sn, retx_pending := true, retx_count := r.retx_count }) }

/-- One event on the AM Tx entity. -/
def step (m w max_retx_thresh hdr_base so_len : Nat) (s : rlc_tx_am_state) :
    rlc_tx_am_event → rlc_tx_am_state
  | .submit_sdu len => submit_sdu s len
  | .pull_pdu max_bytes => pull_pdu m w max_retx_thresh hdr_base so_len s max_bytes
  | .handle_status_report ack_sn nack_sns => handle_status_report m s ack_sn nack_sns
  | .t_poll_retx_expiry => t_poll_retx_expiry s

/-- The number of SN values of the configured field, `cardinality(sn_field_length)`. -/
def sn_modulus (cfg : rlc_tx_am_config) : Nat :=
  (cardinality cfg.sn_field_length.to_number).getD 0

/-- The window size of the configured field, `window_size(sn_field_length)`. -/
def am_window_size (cfg : rlc_tx_am_config) : Nat :=
  (window_size cfg.sn_field_length.to_number).getD 0

/-- The state of an AM Tx entity configured with `cfg` after a sequence of events. -/
def run (cfg : rlc_tx_am_config) (hdr_base so_len : Nat) (events : List rlc_tx_am_event) :
    rlc_tx_am_state :=
  events.foldl
    (step (sn_modulus cfg) (am_window_size cfg) cfg.max_retx_thresh hdr_base so_len) initial

/-- The SNs of the unacknowledged records of the Tx buffer. -/
def outstanding (s : rlc_tx_am_state) : List Nat := s.tx_buffer.map (fun r => r.sn)

/-- The invariant behind the window bound: `TX_Next_Ack` and `TX_Next` are SN values, the
outstanding SNs lie in `[TX_Next_Ack, TX_Next)` in the order of their assignment, and
`TX_Next` is at most `w` steps after `TX_Next_Ack` while an SN is outstanding. -/
def window_inv (m w : Nat) (s : rlc_tx_am_state) : Prop :=
  s.tx_next_ack < m ∧ s.tx_next < m ∧
  (outstanding s).Pairwise
    (fun x y => sn_distance m s.tx_next_ack x < sn_distance m s.tx_next_ack y) ∧
  (∀ x ∈ outstanding s,
    x < m ∧ sn_distance m s.tx_next_ack x < sn_distance m s.tx_next_ack s.tx_next) ∧
  (outstanding s ≠ [] → sn_distance m s.tx_next_ack s.tx_next ≤ w)

end rlc_tx_am_entity

/-! ## The UM Tx and Rx entities, modelled from the spec

The classes `rlc_tx_um_entity` and `rlc_rx_um_entity`, which `rlc_um_entity` composes, are
not among the sources. The definitions of this section follow the specification: data model
(SDU, segment, reassembly window) and component design of the UM entities. A byte is a
number, an SDU a list of bytes. A PDU is the record of its header fields and its payload;
the header lengths, which the specification does not fix, are parameters. Arrival times and
the timer `t_reassembly` are left out: the definitions describe the entities between two
expiries of the timer. -/

/-- Modelled from the spec: a UM data PDU, the "SN field of configured width", the
"segmentation-info field (2 bits: full/first/last/middle)", "for non-full segments, a
segment-offset field", and the payload, "a contiguous byte range of an SDU". -/
structure rlc_um_pdu where
  si : rlc_si_field
  sn : Nat
  so : Nat
  payload : List Nat
  deriving DecidableEq, Repr

/-- Modelled from the spec: the length of a PDU in bytes: `hdr_base` bytes of header,
`so_len` more for the segment offset of a non-full segment, and the payload. -/
def rlc_um_pdu.size (hdr_base so_len : Nat) (p : rlc_um_pdu) : Nat :=
  hdr_base + (if p.si = rlc_si_field.full_sdu then 0 else so_len) + p.payload.length

/-- Modelled from the spec: the state of the UM Tx entity: the SDUs pending transmission,
the SN of the SDU at the head of the queue, and the number of bytes of that SDU already
sent in segments. -/
structure rlc_tx_um_state where
  sdu_queue : List (List Nat)
  tx_next : Nat
  next_so : Nat
  deriving DecidableEq, Repr

namespace rlc_tx_um_entity

/-- Modelled from the spec: the UM Tx entity after construction. -/
def initial : rlc_tx_um_state := { sdu_queue := [], tx_next := 0, next_so := 0 }

/-- Modelled from the spec: `submit_sdu(bytes)` "appends SDU to the pending queue". -/
def submit_sdu (s : rlc_tx_um_state) (sdu : List Nat) : rlc_tx_um_state :=
  { s with sdu_queue := s.sdu_queue ++ [sdu] }

/-- Modelled from the spec: `pull_pdu(max_bytes)` of the UM Tx entity, which "segments SDUs
and transmits unconditionally": it "produces at most one PDU ≤ max_bytes", the oldest SDU
whole if it fits and otherwise its next segment ("if the chosen content exceeds max_bytes,
it is segmented further"); every segment of an SDU carries the SN "assigned at segmentation
start" and its offset, and when the SDU is done the SN "simply increments modulo field
width". The result is the PDU, if one is produced, and the state after the call. -/
def pull_pdu (m hdr_base so_len : Nat) (s : rlc_tx_um_state) (max_bytes : Nat) :
    Option rlc_um_pdu × rlc_tx_um_state :=
  match s.sdu_queue with
  | [] => (none, s)
  | sdu :: queue =>
    if s.next_so = 0 then
      if hdr_base + sdu.length ≤ max_bytes then
        (some { si := rlc_si_field.full_sdu, sn := s.tx_next, so := 0, payload := sdu },
         { sdu_queue := queue, tx_next := (s.tx_next + 1) % m, next_so := 0 })
      else if max_bytes ≤ hdr_base + so_len then (none, s)
      else
        (some { si := rlc_si_field.first_segment, sn := s.tx_next, so := 0,
                payload := sdu.take (max_bytes - (hdr_base + so_len)) },
         { sdu_queue := sdu :: queue, tx_next := s.tx_next,
           next_so := max_bytes - (hdr_base + so_len) })
    else
      if max_bytes ≤ hdr_base + so_len then (none, s)
      else if sdu.length - s.next_so ≤ max_bytes - (hdr_base + so_len) then
        (some { si := rlc_si_field.last_segment, sn := s.tx_next, so := s.next_so,
                payload := sdu.drop s.next_so },
         { sdu_queue := queue, tx_next := (s.tx_next + 1) % m, next_so := 0 })
      else
        (some { si := rlc_si_field.middle_segment, sn := s.tx_next, so := s.next_so,
                payload := (sdu.drop s.next_so).take (max_bytes - (hdr_base + so_len)) },
         { sdu_queue := sdu :: queue, tx_next := s.tx_next,
           next_so := s.next_so + (max_bytes - (hdr_base + so_len)) })

/-- Repeated `pull_pdu(max_bytes)` until the queue is empty: the PDUs produced, in order.
`none` when a pull produces nothing while an SDU is pending, or when the fuel runs out. -/
def pull_all (m hdr_base so_len max_bytes : Nat) : Nat → rlc_tx_um_state →
    Option (List rlc_um_pdu)
  | 0, s => if s.sdu_queue = [] then some [] else none
  | fuel + 1, s =>
    if s.sdu_queue = [] then some []
    else
      match pull_pdu m hdr_base so_len s max_bytes with
      | (none, _) => none
      | (some p, s1) => (pull_all m hdr_base so_len max_bytes fuel s1).map (fun l => p :: l)

end rlc_tx_um_entity

/-- Modelled from the spec: a received segment in a per-SN reassembly record: its offset in
the SDU, its bytes, and whether it is the last segment of the SDU. -/
structure rlc_rx_um_segment where
  so : Nat
  payload : List Nat
  is_last : Bool
  deriving DecidableEq, Repr

/-- Modelled from the spec: the state of the UM Rx entity: the lower edge `RX_Next` of the
reassembly window, the "per-SN reassembly record", the segments received for an SN in the
order of their offsets (no segment: no record), and the SDUs completed out of SN order with
their SNs, "buffered and released only once all lower SNs have been delivered". -/
structure rlc_rx_um_state where
  rx_next : Nat
  reassembly : Nat → List rlc_rx_um_segment
  completed : List (Nat × List Nat)

namespace rlc_rx_um_entity

/-- Modelled from the spec: the UM Rx entity after construction. -/
def initial : rlc_rx_um_state := { rx_next := 0, reassembly := fun _ => [], completed := [] }

/-- Modelled from the spec: a PDU with "inconsistent segmentation fields" (`MalformedPdu`):
a full SDU or first segment with a nonzero offset, or a middle or last segment at
offset 0. -/
def malformed (p : rlc_um_pdu) : Bool :=
  match p.si with
  | .full_sdu => p.so != 0
  | .first_segment => p.so != 0
  | .middle_segment => p.so == 0
  | .last_segment => p.so == 0

/-- Modelled from the spec: the segment carried by a segment PDU. -/
def segment_of_pdu (p : rlc_um_pdu) : rlc_rx_um_segment :=
  { so := p.so, payload := p.payload, is_last := decide (p.si = rlc_si_field.last_segment) }

/-- Modelled from the spec: "merges segment into the per-SN reassembly record": the segment
is put at the place of its offset; `none` for a duplicate, a segment whose offset is
already in the record. -/
def merge_segment (g : rlc_rx_um_segment) : List rlc_rx_um_segment →
    Option (List rlc_rx_um_segment)
  | [] => some [g]
  | h :: t =>
    if g.so < h.so then some (g :: h :: t)
    else if g.so = h.so then none
    else (merge_segment g t).map (fun l => h :: l)

/-- Modelled from the spec: the reassembled SDU of a complete record: the segments follow
each other without gap from offset `off` and the last one is the last segment of the SDU.
`none` while the record is incomplete. -/
def assemble_from : Nat → List rlc_rx_um_segment → Option (List Nat)
  | _, [] => none
  | off, [g] => if g.so = off ∧ g.is_last = true then some g.payload else none
  | off, g :: h :: t =>
    if g.so = off ∧ g.is_last = false then
      (assemble_from (off + g.payload.length) (h :: t)).map (fun l => g.payload ++ l)
    else none

/-- Modelled from the spec: the lookup in the buffer of completed SDUs: the SDU buffered
for the SN `sn`, if there is one. -/
def buffered (sn : Nat) : List (Nat × List Nat) → Option (List Nat)
  | [] => none
  | e :: t => if e.1 = sn then some e.2 else buffered sn t

/-- Modelled from the spec: delivery "upward in increasing SN order": while the SDU of
`RX_Next` is complete, it is delivered and taken out of the buffer, and `RX_Next` moves to
the next SN modulo `m`. The argument before the state bounds the number of rounds;
`release` passes the number of buffered SDUs, which the loop does not exceed, as every round
takes one out (`release_loop_ends`). -/
def release_loop (m : Nat) : Nat → rlc_rx_um_state → List (List Nat) × rlc_rx_um_state
  | 0, s => ([], s)
  | fuel + 1, s =>
    match buffered s.rx_next s.completed with
    | none => ([], s)
    | some sdu =>
      (sdu :: (release_loop m fuel
          { rx_next := (s.rx_next + 1) % m, reassembly := s.reassembly,
            completed := s.completed.filter (fun e => decide (e.1 ≠ s.rx_next)) }).1,
       (release_loop m fuel
          { rx_next := (s.rx_next + 1) % m, reassembly := s.reassembly,
            completed := s.completed.filter (fun e => decide (e.1 ≠ s.rx_next)) }).2)

/-- Modelled from the spec: the SDUs delivered by the release of the buffer, in order, and
the state afterwards. -/
def release (m : Nat) (s : rlc_rx_um_state) : List (List Nat) × rlc_rx_um_state :=
  release_loop m s.completed.length s

/-- Modelled from the spec: "on completion" of the SDU with SN `sn` the reassembly record is
destroyed, the SDU is put into the buffer of completed SDUs and the buffer is released from
`RX_Next` on. -/
def complete (m : Nat) (s : rlc_rx_um_state) (sn : Nat) (sdu : List Nat) :
    List (List Nat) × rlc_rx_um_state :=
  release m
    { rx_next := s.rx_next,
      reassembly := fun k => if k = sn then [] else s.reassembly k,
      completed := (sn, sdu) :: s.completed }

/-- Modelled from the spec: `handle_pdu` of the UM Rx entity, "simplified AM without
acknowledgment". A malformed PDU, or one whose SN is not a value of the SN field, is
dropped. A PDU whose SN is outside the reassembly window
`[RX_Next, RX_Next + window_size)` is a stale duplicate and is discarded, and so is a PDU
for an SN whose SDU is complete already. A full SDU completes its SN; a segment is merged
into the record of its SN (a segment received before is discarded), and completes the SN
when the record is complete. On completion the SDUs are delivered "upward in increasing SN
order", and `RX_Next` moves past every SN delivered. The result is the SDUs delivered to
the upper layer by this call, in order, and the state after the call. -/
def handle_pdu (m w : Nat) (s : rlc_rx_um_state) (p : rlc_um_pdu) :
    List (List Nat) × rlc_rx_um_state :=
  if malformed p ∨ m ≤ p.sn then ([], s)
  else if ¬ sn_distance m s.rx_next p.sn < w then ([], s)
  else if (buffered p.sn s.completed).isSome then ([], s)
  else if p.si = rlc_si_field.full_sdu then complete m s p.sn p.payload
  else
    match merge_segment (segment_of_pdu p) (s.reassembly p.sn) with
    | none => ([], s)
    | some record =>
      match assemble_from 0 record with
      | some sdu => complete m s p.sn sdu
      | none =>
        ([],
         { rx_next := s.rx_next,
           reassembly := fun sn => if sn = p.sn then record else s.reassembly sn,
           completed := s.completed })

/-- The PDUs handed to `handle_pdu` one after the other: the SDUs delivered to the upper
layer, in the order of delivery, and the state at the end. -/
def handle_pdus (m w : Nat) : rlc_rx_um_state → List rlc_um_pdu →
    List (List Nat) × rlc_rx_um_state
  | s, [] => ([], s)
  | s, p :: ps =>
    ((handle_pdu m w s p).1 ++ (handle_pdus m w (handle_pdu m w s p).2 ps).1,
     (handle_pdus m w (handle_pdu m w s p).2 ps).2)

end rlc_rx_um_entity

namespace rlc_um_entity

/-- A bound on the number of `pull_pdu` calls that send the SDUs of a queue: every call
that produces a PDU sends at least one more byte of the oldest SDU or finishes it. -/
def pull_bound (queue : List (List Nat)) : Nat :=
  (queue.map (fun sdu => sdu.length + 1)).sum

/-- The PDUs a UM Tx entity configured with `cfg` produces for the SDUs submitted, in this
order, after construction, by `pull_pdu(max_bytes)` calls until all of them are sent. -/
def tx_pdus (cfg : rlc_tx_um_config) (hdr_base so_len : Nat) (sdus : List (List Nat))
    (max_bytes : Nat) : Option (List rlc_um_pdu) :=
  rlc_tx_um_entity.pull_all ((cardinality cfg.sn_field_length.to_number).getD 0)
    hdr_base so_len max_bytes (pull_bound sdus)
    (sdus.foldl rlc_tx_um_entity.submit_sdu rlc_tx_um_entity.initial)

/-- The SDUs a UM Rx entity configured with `cfg` delivers to the upper layer when the given
PDUs arrive in this order after construction. -/
def rx_delivered (cfg : rlc_rx_um_config) (pdus : List rlc_um_pdu) : List (List Nat) :=
  (rlc_rx_um_entity.handle_pdus ((cardinality cfg.sn_field_length.to_number).getD 0)
    ((window_size cfg.sn_field_length.to_number).getD 0)
    rlc_rx_um_entity.initial pdus).1

/-- A run of segments that follow each other without gap from offset `off`, none of them
the last segment of the SDU and none empty, whose payloads together are `bytes`. -/
def chain : Nat → List rlc_rx_um_segment → List Nat → Prop
  | _, [], bytes => bytes = []
  | off, g :: gs, bytes =>
    g.so = off ∧ g.is_last = false ∧ g.payload ≠ [] ∧
    ∃ rest, bytes = g.payload ++ rest ∧ chain (off + g.payload.length) gs rest

end rlc_um_entity

/-! ## Theorems on `rlc_config.h` -/

/-- C1: for every sequence-number field length `k` with `1 ≤ k ≤ 31`, `window_size k`
returns a value, and that value is exactly `2^(k-1)`. -/
theorem window_size_eq_pow (k : Nat) (h1 : 1 ≤ k) (h31 : k ≤ 31) :
    window_size k = some (2 ^ (k - 1)) := by
  interval_cases k <;> rfl

/-- C1 at the 6-bit UM field: the window is 32. -/
theorem window_size_eq_pow_witness : (1 ≤ 6 ∧ 6 ≤ 31) ∧ window_size 6 = some 32 :=
  ⟨by decide, window_size_eq_pow 6 (by decide) (by decide)⟩

/-- C2: for `sn_size < 32`, `cardinality sn_size` returns `2^sn_size`, which fits the 32-bit
unsigned return type; for `sn_size ≥ 32` the assertion fails and nothing is returned. -/
theorem cardinality_spec (sn_size : Nat) :
    (sn_size < 32 → cardinality sn_size = some (2 ^ sn_size) ∧ 2 ^ sn_size < 2 ^ 32) ∧
    (32 ≤ sn_size → cardinality sn_size = none) := by
  constructor
  · intro h
    interval_cases sn_size <;> exact ⟨rfl, by decide⟩
  · intro h
    have : ¬ sn_size < 32 := by omega
    simp [cardinality, srsgnb_assert, this]

/-- C2 at `sn_size = 6` (64 values) and at `sn_size = 32` (assertion failure). -/
theorem cardinality_spec_witness : cardinality 6 = some 64 ∧ cardinality 32 = none :=
  ⟨((cardinality_spec 6).1 (by decide)).1, (cardinality_spec 32).2 (by decide)⟩

/-- C3: `to_number` takes exactly the values 6 and 12 on `rlc_um_sn_size` and exactly the
values 12 and 18 on `rlc_am_sn_size`; for each of these field lengths `window_size` and
`cardinality` both return a value, and the window is half of the cardinality. -/
theorem sn_size_values_and_window :
    (∀ s : rlc_um_sn_size, s.to_number = 6 ∨ s.to_number = 12) ∧
    (∃ s : rlc_um_sn_size, s.to_number = 6) ∧ (∃ s : rlc_um_sn_size, s.to_number = 12) ∧
    (∀ s : rlc_am_sn_size, s.to_number = 12 ∨ s.to_number = 18) ∧
    (∃ s : rlc_am_sn_size, s.to_number = 12) ∧ (∃ s : rlc_am_sn_size, s.to_number = 18) ∧
    (∀ s : rlc_um_sn_size, ∃ w c, window_size s.to_number = some w ∧
      cardinality s.to_number = some c ∧ 2 * w = c) ∧
    (∀ s : rlc_am_sn_size, ∃ w c, window_size s.to_number = some w ∧
      cardinality s.to_number = some c ∧ 2 * w = c) := by
  refine ⟨?_, ⟨.size6bits, rfl⟩, ⟨.size12bits, rfl⟩, ?_, ⟨.size12bits, rfl⟩,
    ⟨.size18bits, rfl⟩, ?_, ?_⟩
  · intro s; cases s <;> simp [rlc_um_sn_size.to_number]
  · intro s; cases s <;> simp [rlc_am_sn_size.to_number]
  · intro s; cases s
    · exact ⟨32, 64, rfl, rfl, rfl⟩
    · exact ⟨2048, 4096, rfl, rfl, rfl⟩
  · intro s; cases s
    · exact ⟨2048, 4096, rfl, rfl, rfl⟩
    · exact ⟨131072, 262144, rfl, rfl, rfl⟩

/-! ## Traversal of `base_optional_span` -/

namespace base_optional_span

variable {T : Type}

/-- Filtering an interval of positions may start after a run of rejected positions. -/
theorem filter_range_skip (p : Nat → Bool) (n : Nat) :
    ∀ (d a b : Nat), b - a = d → a ≤ b → b ≤ n → (∀ k, a ≤ k → k < b → p k = false) →
      (List.range' a (n - a)).filter p = (List.range' b (n - b)).filter p := by
  intro d
  induction d with
  | zero =>
    intro a b hd hab _ _
    have : a = b := by omega
    subst this; rfl
  | succ d ih =>
    intro a b hd hab hbn h
    have hlen : n - a = (n - (a + 1)) + 1 := by omega
    rw [hlen, List.range'_succ, List.filter_cons_of_neg (by simp [h a (le_refl a) (by omega)])]
    exact ih (a + 1) b (by omega) (by omega) hbn (fun k hk hkb => h k (by omega) hkb)

/-- With enough fuel `operator++` stops at the next present position, or at `vec.size()`
when there is none. -/
theorem iterator_incr_spec (s : base_optional_span T) (hN : s.vec.length < SIZE_T_CARD) :
    ∀ (fuel idx : Nat), idx < s.vec.length → s.vec.length - idx ≤ fuel →
      ∃ j, iterator_incr s fuel idx = some j ∧ idx < j ∧ j ≤ s.vec.length ∧
        (j < s.vec.length → s.contains j = true) ∧
        ∀ k, idx < k → k < j → s.contains k = false := by
  intro fuel
  induction fuel with
  | zero => intro idx h1 h2; omega
  | succ fuel ih =>
    intro idx h1 h2
    have hmod : (idx + 1) % SIZE_T_CARD = idx + 1 := Nat.mod_eq_of_lt (by omega)
    unfold iterator_incr
    simp only [hmod]
    by_cases hc : (decide (idx + 1 < s.vec.length) && !(s.contains (idx + 1))) = true
    · rw [if_pos hc]
      simp only [Bool.and_eq_true, decide_eq_true_eq, Bool.not_eq_true'] at hc
      obtain ⟨j, hj, h3, h4, h5, h6⟩ := ih (idx + 1) hc.1 (by omega)
      refine ⟨j, hj, by omega, h4, h5, ?_⟩
      intro k hk hkj
      by_cases hk1 : k = idx + 1
      · rw [hk1]; exact hc.2
      · exact h6 k (by omega) hkj
    · rw [if_neg hc]
      refine ⟨idx + 1, rfl, by omega, by omega, ?_, fun k hk hkj => by omega⟩
      intro hlt
      simp only [Bool.and_eq_true, decide_eq_true_eq, Bool.not_eq_true', not_and,
        Bool.not_eq_false] at hc
      exact hc hlt

/-- From a position that is present or is `vec.size()`, the loop up to `end()` visits the
present positions that follow, in increasing order. -/
theorem traverse_loop_spec (s : base_optional_span T) (hN : s.vec.length < SIZE_T_CARD)
    (F : Nat) (hF : s.vec.length ≤ F) :
    ∀ (fuel it : Nat), it ≤ s.vec.length → (it < s.vec.length → s.contains it = true) →
      s.vec.length - it + 1 ≤ fuel →
      traverse_loop s F s.vec.length fuel it =
        some ((List.range' it (s.vec.length - it)).filter s.contains) := by
  intro fuel
  induction fuel with
  | zero => intro it _ _ h; omega
  | succ fuel ih =>
    intro it hle hpres hfuel
    unfold traverse_loop
    by_cases he : it = s.vec.length
    · rw [if_pos he, he]; simp
    · rw [if_neg he]
      have hlt : it < s.vec.length := by omega
      obtain ⟨j, hj, h3, h4, h5, h6⟩ := iterator_incr_spec s hN F it hlt (by omega)
      rw [hj]
      simp only
      rw [ih j h4 h5 (by omega)]
      have hlen : s.vec.length - it = (s.vec.length - (it + 1)) + 1 := by omega
      rw [hlen, List.range'_succ, List.filter_cons_of_pos (hpres hlt)]
      rw [filter_range_skip s.contains s.vec.length (j - (it + 1)) (it + 1) j rfl (by omega) h4
        (fun k hk hkj => h6 k (by omega) hkj)]
      rfl

/-- The traversal from `begin()` to `end()` returns, and visits the present positions in
increasing order. -/
theorem visited_eq_filter (s : base_optional_span T) (hN : s.vec.length < SIZE_T_CARD) :
    visited s = some ((List.range s.vec.length).filter s.contains) := by
  have hend : s.end_ (s.vec.length + 1) = some s.vec.length := by
    simp [end_, iterator_ctor]
  unfold visited
  simp only [hend]
  rw [List.range_eq_range']
  by_cases hc : (decide (0 < s.vec.length) && !(s.contains 0)) = true
  · have hb : s.begin (s.vec.length + 1) = iterator_incr s (s.vec.length + 1) 0 := by
      simp only [begin, iterator_ctor]; rw [if_pos hc]
    simp only [Bool.and_eq_true, decide_eq_true_eq, Bool.not_eq_true'] at hc
    obtain ⟨j, hj, h3, h4, h5, h6⟩ := iterator_incr_spec s hN (s.vec.length + 1) 0 hc.1 (by omega)
    rw [hb, hj]
    simp only
    rw [traverse_loop_spec s hN _ (by omega) _ j h4 h5 (by omega)]
    have := filter_range_skip s.contains s.vec.length (j - 0) 0 j rfl (by omega) h4
      (fun k _ hkj => by
        by_cases hk0 : k = 0
        · rw [hk0]; exact hc.2
        · exact h6 k (by omega) hkj)
    simpa using this.symm
  · have hb : s.begin (s.vec.length + 1) = some 0 := by
      simp only [begin, iterator_ctor]; rw [if_neg hc]
    simp only [Bool.and_eq_true, decide_eq_true_eq, Bool.not_eq_true', not_and,
      Bool.not_eq_false] at hc
    rw [hb]
    simp only
    rw [traverse_loop_spec s hN _ (by omega) _ 0 (by omega) hc (by omega)]
    simp

/-- C4: for every state of the container (its length a `size_t` value), the iteration from
`begin()` until `end()` terminates and visits exactly the indices `i` with `contains(i)`,
each once, in strictly increasing order; it visits nothing when no slot is present. -/
theorem iteration_visits_present (s : base_optional_span T)
    (hN : s.vec.length < SIZE_T_CARD) :
    ∃ l, visited s = some l ∧ (∀ i, i ∈ l ↔ s.contains i = true) ∧
      l.Sorted (· < ·) ∧ l.Nodup ∧ ((∀ i, s.contains i = false) → l = []) := by
  refine ⟨_, visited_eq_filter s hN, ?_, ?_, ?_, ?_⟩
  · intro i
    simp only [List.mem_filter, List.mem_range, and_iff_right_iff_imp]
    intro hi
    by_contra hge
    simp [contains, hge] at hi
  · exact (List.sorted_lt_range _).filter _
  · exact (List.nodup_range _).filter _
  · intro h
    simp [List.filter_eq_nil_iff, h]

end base_optional_span

/-! ## Modifiers of `base_optional_vector` -/

namespace base_optional_span

variable {T : Type}

theorem contains_eq_isSome_index (s : base_optional_span T) (i : Nat) :
    s.contains i = (s.index i).isSome := by
  unfold contains index
  split <;> rfl

theorem index_set (s : base_optional_span T) (n j : Nat) (x : Option T) (i : Nat)
    (hj : j < s.vec.length) :
    index { nof_elems := n, vec := s.vec.set j x } i = if i = j then x else s.index i := by
  unfold index
  by_cases hij : i = j
  · subst hij; simp [hj]
  · simp only [List.length_set, if_neg hij]
    split
    · rw [List.getElem_set_ne (Ne.symm hij)]
    · rfl

theorem nof_present_set_some (l : List (Option T)) (u : T) :
    ∀ (j : Nat) (hj : j < l.length),
      nof_present (l.set j (some u)) = nof_present l + (if (l[j]).isSome then 0 else 1) := by
  induction l with
  | nil => intro j hj; simp at hj
  | cons a l ih =>
    intro j hj
    cases j with
    | zero =>
      cases a <;> simp [nof_present, List.countP_cons]
    | succ j =>
      have := ih j (by simpa using hj)
      simp only [nof_present] at this
      simp only [nof_present, List.set_cons_succ, List.countP_cons, List.getElem_cons_succ, this]
      omega

theorem nof_present_set_none (l : List (Option T)) :
    ∀ (j : Nat) (hj : j < l.length),
      nof_present (l.set j none) + (if (l[j]).isSome then 1 else 0) = nof_present l := by
  induction l with
  | nil => intro j hj; simp at hj
  | cons a l ih =>
    intro j hj
    cases j with
    | zero =>
      cases a <;> simp [nof_present, List.countP_cons]
    | succ j =>
      have := ih j (by simpa using hj)
      simp only [nof_present] at this
      simp only [nof_present, List.set_cons_succ, List.countP_cons, List.getElem_cons_succ]
      omega

theorem nof_present_le (l : List (Option T)) : nof_present l ≤ l.length :=
  List.countP_le_length _

/-- An absent slot inside the container leaves room for one more present element. -/
theorem nof_present_lt_of_absent (l : List (Option T)) (j : Nat) (hj : j < l.length)
    (h : (l[j]).isSome = false) : nof_present l < l.length := by
  have hle := nof_present_le l
  by_contra hnot
  have heq : l.countP Option.isSome = l.length := by
    unfold nof_present at hle hnot; omega
  rw [List.countP_eq_length] at heq
  have hmem : l[j] ∈ l := List.getElem_mem ..
  have := heq _ hmem
  simp [h] at this

/-- When `nof_elems` counts the present fields and equals `vec.size()`, every slot is
present. -/
theorem all_present_of_full (l : List (Option T)) (h : nof_present l = l.length)
    (j : Nat) (hj : j < l.length) : (l[j]).isSome = true := by
  unfold nof_present at h
  rw [List.countP_eq_length] at h
  exact h _ (List.getElem_mem ..)

end base_optional_span

namespace base_optional_vector

open base_optional_span

variable {T : Type}

/-- What `insert` and `emplace` guarantee in general: with `idx` in range they return; afterwards
`contains(idx)` holds and `operator[](idx)` is `u`; on a container whose `nof_elems` counts
its present fields, `size()` has grown by exactly 1 if the slot was absent and is unchanged
if the slot was present. -/
theorem insert_emplace_spec (s : base_optional_span T) (idx : Nat) (u : T)
    (hidx : idx < s.vec.length) :
    ∃ s1, insert s idx u = some s1 ∧ emplace s idx u = some s1 ∧
      s1.contains idx = true ∧ s1.index idx = some u ∧
      (s.nof_elems_ok →
        (s.contains idx = false → s1.size = s.size + 1) ∧
        (s.contains idx = true → s1.size = s.size)) := by
  refine ⟨{ nof_elems := (s.nof_elems + (if s.contains idx then 0 else 1)) % SIZE_T_CARD,
            vec := s.vec.set idx (some u) },
    by simp only [insert, srsgnb_assert, hidx, decide_True, if_true],
    by simp only [emplace, srsgnb_assert, hidx, decide_True, if_true], ?_, ?_, ?_⟩
  · rw [contains_eq_isSome_index, index_set s _ idx _ idx hidx]; simp
  · rw [index_set s _ idx _ idx hidx]; simp
  · rintro ⟨hcnt, hN⟩
    constructor
    · intro hc
      have habs : (s.vec[idx]).isSome = false := by simpa [contains, hidx] using hc
      have hlt := nof_present_lt_of_absent s.vec idx hidx habs
      simp only [size, hc]
      exact Nat.mod_eq_of_lt (by simp only [Bool.false_eq_true, if_false]; omega)
    · intro hc
      have hle := nof_present_le s.vec
      simp only [size, hc, if_true, Nat.add_zero]
      exact Nat.mod_eq_of_lt (by omega)

/-- What `erase` guarantees in general: with `idx` in range it returns; afterwards `contains(idx)` is false, and a
second `erase(idx)` changes nothing; `size()` is unchanged if the slot was absent and, on a
container whose `nof_elems` counts its present fields, has decreased by exactly 1 if the
slot was present. -/
theorem erase_spec (s : base_optional_span T) (idx : Nat) (hidx : idx < s.vec.length) :
    ∃ s1, erase s idx = some s1 ∧ s1.contains idx = false ∧
      erase s1 idx = some s1 ∧
      (s.contains idx = false → s1.size = s.size) ∧
      (s.nof_elems_ok → s.contains idx = true → s1.size + 1 = s.size) := by
  by_cases hc : s.contains idx = true
  · have hpres : (s.vec[idx]).isSome = true := by simpa [contains, hidx] using hc
    have hafter : base_optional_span.contains
        ({ nof_elems := (if s.nof_elems = 0 then SIZE_T_CARD - 1 else s.nof_elems - 1),
           vec := s.vec.set idx none } : base_optional_span T) idx = false := by
      rw [contains_eq_isSome_index, index_set s _ idx _ idx hidx]; simp
    refine ⟨{ nof_elems := (if s.nof_elems = 0 then SIZE_T_CARD - 1 else s.nof_elems - 1),
              vec := s.vec.set idx none },
      by simp only [erase, srsgnb_assert, hidx, decide_True, if_true, hc], hafter, ?_, ?_, ?_⟩
    · simp only [erase, srsgnb_assert, List.length_set, hidx, decide_True, if_true, hafter,
        Bool.false_eq_true, if_false]
    · intro hc2; rw [hc] at hc2; cases hc2
    · rintro ⟨hcnt, hN⟩ _
      have hcount := nof_present_set_none s.vec idx hidx
      rw [if_pos hpres] at hcount
      have hpos : 0 < s.nof_elems := by omega
      have hle := nof_present_le s.vec
      show (if s.nof_elems = 0 then SIZE_T_CARD - 1 else s.nof_elems - 1) + 1 = s.nof_elems
      rw [if_neg (by omega)]
      omega
  · have hc2 : s.contains idx = false := by simpa using hc
    have he : erase s idx = some s := by
      simp only [erase, srsgnb_assert, hidx, decide_True, if_true, hc2, Bool.false_eq_true,
        if_false]
    exact ⟨s, he, hc2, he, fun _ => rfl, fun _ h => by rw [hc2] at h; cases h⟩

end base_optional_vector

/-! ## The invariant of `nof_elems` and `find_first_empty` -/

namespace base_optional_vector

open base_optional_span

variable {T : Type}

theorem insert_keeps_ok (s s1 : base_optional_span T) (idx : Nat) (u : T)
    (hok : s.nof_elems_ok) (h : insert s idx u = some s1) :
    s1.nof_elems_ok ∧ s1.vec.length = s.vec.length := by
  obtain ⟨hcnt, hN⟩ := hok
  by_cases hidx : idx < s.vec.length
  · simp only [insert, srsgnb_assert, hidx, decide_True, if_true, Option.some.injEq] at h
    subst h
    have hset := nof_present_set_some s.vec u idx hidx
    have hle := nof_present_le s.vec
    have hlen : (s.vec.set idx (some u)).length = s.vec.length := List.length_set ..
    refine ⟨⟨?_, ?_⟩, hlen⟩
    · show (s.nof_elems + (if s.contains idx then 0 else 1)) % SIZE_T_CARD
          = nof_present (s.vec.set idx (some u))
      rw [hset]
      have hcont : s.contains idx = (s.vec[idx]).isSome := by
        unfold contains; rw [dif_pos hidx]
      rw [hcont]
      by_cases hp : (s.vec[idx]).isSome = true
      · rw [if_pos hp]
        rw [Nat.mod_eq_of_lt (by omega)]
        omega
      · have hlt := nof_present_lt_of_absent s.vec idx hidx (by simpa using hp)
        rw [if_neg hp]
        rw [Nat.mod_eq_of_lt (by omega)]
        omega
    · show (s.vec.set idx (some u)).length < SIZE_T_CARD
      rw [hlen]; exact hN
  · simp only [insert, srsgnb_assert, hidx, decide_False] at h
    cases h

theorem emplace_keeps_ok (s s1 : base_optional_span T) (idx : Nat) (u : T)
    (hok : s.nof_elems_ok) (h : emplace s idx u = some s1) :
    s1.nof_elems_ok ∧ s1.vec.length = s.vec.length :=
  insert_keeps_ok s s1 idx u hok h

theorem erase_keeps_ok (s s1 : base_optional_span T) (idx : Nat)
    (hok : s.nof_elems_ok) (h : erase s idx = some s1) :
    s1.nof_elems_ok ∧ s1.vec.length = s.vec.length := by
  by_cases hidx : idx < s.vec.length
  · simp only [erase, srsgnb_assert, hidx, decide_True, if_true, Option.some.injEq] at h
    by_cases hc : s.contains idx = true
    · rw [if_pos hc] at h
      subst h
      obtain ⟨hcnt, hN⟩ := hok
      have hpres : (s.vec[idx]).isSome = true := by
        unfold contains at hc; rw [dif_pos hidx] at hc; exact hc
      have hcount := nof_present_set_none s.vec idx hidx
      rw [if_pos hpres] at hcount
      have hle := nof_present_le s.vec
      have hlen : (s.vec.set idx none).length = s.vec.length := List.length_set ..
      refine ⟨⟨?_, ?_⟩, hlen⟩
      · show (if s.nof_elems = 0 then SIZE_T_CARD - 1 else s.nof_elems - 1) = nof_present (s.vec.set idx none)
        rw [if_neg (by omega)]
        omega
      · show (s.vec.set idx none).length < SIZE_T_CARD
        rw [hlen]; exact hN
    · rw [if_neg hc] at h
      subst h
      exact ⟨hok, rfl⟩
  · simp only [erase, srsgnb_assert, hidx, decide_False] at h
    cases h

end base_optional_vector

namespace base_optional_span

variable {T : Type}

/-- With enough fuel the loop of `find_first_empty` started at `i` returns the first
position from `i` on that is not present, `vec.size()` if there is none. -/
theorem find_first_empty_loop_spec (s : base_optional_span T)
    (hN : s.vec.length < SIZE_T_CARD) :
    ∀ (fuel i : Nat), i ≤ s.vec.length → s.vec.length - i + 1 ≤ fuel →
      ∃ r, find_first_empty_loop s fuel i = some r ∧ i ≤ r ∧ r ≤ s.vec.length ∧
        s.contains r = false ∧ ∀ k, i ≤ k → k < r → s.contains k = true := by
  intro fuel
  induction fuel with
  | zero => intro i _ h; omega
  | succ fuel ih =>
    intro i hi hfuel
    unfold find_first_empty_loop
    by_cases hlt : i < s.vec.length
    · rw [dif_pos hlt]
      by_cases hp : (s.vec[i]).isSome = true
      · have hmod : (i + 1) % SIZE_T_CARD = i + 1 := Nat.mod_eq_of_lt (by omega)
        have hcond : (!(s.vec[i]).isSome) = false := by rw [hp]; rfl
        rw [hcond, hmod]
        simp only [Bool.false_eq_true, if_false]
        obtain ⟨r, hr, h1, h2, h3, h4⟩ := ih (i + 1) (by omega) (by omega)
        refine ⟨r, hr, by omega, h2, h3, ?_⟩
        intro k hk hkr
        by_cases hki : k = i
        · subst hki
          unfold contains; rw [dif_pos hlt]; exact hp
        · exact h4 k (by omega) hkr
      · have hcond : (!(s.vec[i]).isSome) = true := by
          have : (s.vec[i]).isSome = false := by simpa using hp
          rw [this]; rfl
        rw [hcond]
        simp only [if_true]
        refine ⟨i, rfl, le_refl i, by omega, ?_, fun k hk hkr => by omega⟩
        unfold contains; rw [dif_pos hlt]; simpa using hp
    · rw [dif_neg hlt]
      refine ⟨s.vec.length, rfl, hi, le_refl _, ?_, fun k hk hkr => by omega⟩
      unfold contains; rw [dif_neg (by omega)]

/-- On a container whose `nof_elems` counts its present fields, `find_first_empty(0)`
returns the least position that is not present. -/
theorem find_first_empty_of_ok (s : base_optional_span T) (hok : s.nof_elems_ok) :
    ∃ r, find_first_empty s 0 = some r ∧ r ≤ s.vec.length ∧
      s.contains r = false ∧ ∀ k, k < r → s.contains k = true := by
  obtain ⟨hcnt, hN⟩ := hok
  unfold find_first_empty
  by_cases hfull : s.nof_elems = s.vec.length
  · rw [if_pos hfull]
    refine ⟨s.vec.length, rfl, le_refl _, ?_, ?_⟩
    · unfold contains; rw [dif_neg (by omega)]
    · intro k hk
      unfold contains; rw [dif_pos hk]
      exact all_present_of_full s.vec (by omega) k hk
  · rw [if_neg hfull]
    obtain ⟨r, hr, _, h2, h3, h4⟩ :=
      find_first_empty_loop_spec s hN (s.vec.length + 1) 0 (by omega) (by omega)
    exact ⟨r, hr, h2, h3, fun k hk => h4 k (by omega) hk⟩

end base_optional_span

namespace optional_array

open base_optional_span base_optional_vector

variable {T : Type}

theorem default_ctor_ok (N : Nat) (hN : N < SIZE_T_CARD) :
    (default_ctor T N).nof_elems_ok ∧ (default_ctor T N).vec.length = N := by
  refine ⟨⟨?_, ?_⟩, ?_⟩
  · show 0 = nof_present (List.replicate N (none : Option T))
    unfold nof_present
    symm
    rw [List.countP_eq_zero]
    intro a ha
    rw [List.eq_of_mem_replicate ha]
    simp
  · show (List.replicate N (none : Option T)).length < SIZE_T_CARD
    rw [List.length_replicate]; exact hN
  · exact List.length_replicate ..

theorem calls_keep_ok : ∀ (ms : List (modifier T)) (s s1 : base_optional_span T),
    s.nof_elems_ok → calls s ms = some s1 →
      s1.nof_elems_ok ∧ s1.vec.length = s.vec.length := by
  intro ms
  induction ms with
  | nil =>
    intro s s1 hok h
    simp only [calls, Option.some.injEq] at h
    subst h
    exact ⟨hok, rfl⟩
  | cons m ms ih =>
    intro s s1 hok h
    unfold calls at h
    cases hm : call s m with
    | none => rw [hm] at h; cases h
    | some s2 =>
      rw [hm] at h
      have h2 : s2.nof_elems_ok ∧ s2.vec.length = s.vec.length := by
        cases m with
        | insert idx u => exact insert_keeps_ok s s2 idx u hok hm
        | emplace idx u => exact emplace_keeps_ok s s2 idx u hok hm
        | erase idx => exact erase_keeps_ok s s2 idx hok hm
      obtain ⟨h3, h4⟩ := ih s2 s1 h2.1 h
      exact ⟨h3, by omega⟩

/-- C9: in every state reached from the empty `optional_array` of capacity `N` by
`insert`, `emplace` and `erase` calls at in-range indices, `find_first_empty()` with the
default `start_guess = 0` returns the first empty position: the least `r` with
`contains(r)` false, which is the capacity `N` when every slot is present. -/
theorem find_first_empty_reachable (N : Nat) (hN : N < SIZE_T_CARD)
    (ms : List (modifier T)) (s : base_optional_span T)
    (hs : calls (default_ctor T N) ms = some s) :
    ∃ r, find_first_empty s 0 = some r ∧ r ≤ N ∧ s.contains r = false ∧
      (∀ k, k < r → s.contains k = true) ∧
      ((∀ k, k < N → s.contains k = true) → r = N) := by
  obtain ⟨hok0, hlen0⟩ := @default_ctor_ok T N hN
  obtain ⟨hok, hlen⟩ := calls_keep_ok ms _ s hok0 hs
  obtain ⟨r, hr, h1, h2, h3⟩ := find_first_empty_of_ok s hok
  refine ⟨r, hr, by omega, h2, h3, ?_⟩
  intro hall
  by_contra hne
  have hlt : r < N := by omega
  rw [hall r hlt] at h2
  cases h2

end optional_array

/-! ## Order of iteration after a sequence of `insert` calls -/

namespace optional_array

open base_optional_span base_optional_vector

variable {T : Type}

theorem index_default_ctor (N i : Nat) : (default_ctor T N).index i = none := by
  unfold index
  split
  · simp [default_ctor]
  · rfl

/-- The state after `insert` calls at distinct in-range positions: every inserted position
holds its value, every other position is as before. -/
theorem inserts_spec : ∀ (ops : List (Nat × T)) (s : base_optional_span T),
    (ops.map Prod.fst).Nodup → (∀ p ∈ ops, p.1 < s.vec.length) →
      ∃ s1, inserts s ops = some s1 ∧ s1.vec.length = s.vec.length ∧
        (∀ p ∈ ops, s1.index p.1 = some p.2) ∧
        (∀ i, i ∉ ops.map Prod.fst → s1.index i = s.index i) := by
  intro ops
  induction ops with
  | nil =>
    intro s _ _
    exact ⟨s, rfl, rfl, fun p hp => absurd hp (List.not_mem_nil p), fun _ _ => rfl⟩
  | cons q ops ih =>
    intro s hd hr
    obtain ⟨j, u⟩ := q
    have hj : j < s.vec.length := hr (j, u) (List.mem_cons_self _ _)
    simp only [List.map_cons, List.nodup_cons] at hd
    have hins : base_optional_vector.insert s j u =
        some { nof_elems := (s.nof_elems + (if s.contains j then 0 else 1)) % SIZE_T_CARD,
               vec := s.vec.set j (some u) } := by
      simp only [base_optional_vector.insert, srsgnb_assert, hj, decide_True, if_true]
    obtain ⟨s1, h1, h2, h3, h4⟩ :=
      ih { nof_elems := (s.nof_elems + (if s.contains j then 0 else 1)) % SIZE_T_CARD,
           vec := s.vec.set j (some u) } hd.2
        (fun p hp => by
          show p.1 < (s.vec.set j (some u)).length
          rw [List.length_set]
          exact hr p (List.mem_cons_of_mem _ hp))
    have hlen : s1.vec.length = s.vec.length := by
      rw [h2]; exact List.length_set ..
    refine ⟨s1, ?_, hlen, ?_, ?_⟩
    · show (base_optional_vector.insert s j u).bind (fun s1 => inserts s1 ops) = some s1
      rw [hins]; exact h1
    · intro p hp
      rcases List.mem_cons.1 hp with hpq | hp
      · subst hpq
        show s1.index j = some u
        rw [h4 j hd.1, index_set s _ j _ j hj, if_pos rfl]
      · exact h3 p hp
    · intro i hi
      simp only [List.map_cons, List.mem_cons, not_or] at hi
      rw [h4 i hi.2, index_set s _ j _ i hj, if_neg hi.1]

/-- Counterexample to C5 as stated: `insert(1, 10)` followed by `insert(0, 20)` on an empty
`optional_array<_, 2>` is iterated as `20, 10`, which is not the order of insertion. -/
theorem insertion_order_counterexample :
    (inserts (default_ctor Nat 2) [(1, 10), (0, 20)]).bind elements
        = some [some 20, some 10] ∧
    (inserts (default_ctor Nat 2) [(1, 10), (0, 20)]).bind elements
        ≠ some ([(1, 10), (0, 20)].map (fun p => some p.2)) := by
  decide

/-- C5, amended: after `insert(idx, value)` calls at distinct in-range indices on an empty
`optional_array` of capacity `N`, the iteration from `begin()` to `end()` yields exactly the
inserted elements, each once, in increasing order of their indices. -/
theorem iteration_in_index_order (N : Nat) (hN : N < SIZE_T_CARD) (ops : List (Nat × T))
    (hd : (ops.map Prod.fst).Nodup) (hr : ∀ p ∈ ops, p.1 < N) :
    ∃ s l, inserts (default_ctor T N) ops = some s ∧ range_for s = some l ∧
      l.Perm (ops.map (fun p => (p.1, some p.2))) ∧
      (l.map Prod.fst).Sorted (· < ·) := by
  have hlen0 : (default_ctor T N).vec.length = N := List.length_replicate ..
  obtain ⟨s, h1, h2, h3, h4⟩ := inserts_spec ops (default_ctor T N) hd
    (fun p hp => by rw [hlen0]; exact hr p hp)
  have hlen : s.vec.length = N := by rw [h2, hlen0]
  have hvis := visited_eq_filter s (by rw [hlen]; exact hN)
  refine ⟨s, ((List.range s.vec.length).filter s.contains).map (fun i => (i, s.index i)),
    h1, ?_, ?_, ?_⟩
  · unfold range_for; rw [hvis]; rfl
  · rw [List.perm_ext_iff_of_nodup]
    · rintro ⟨i, x⟩
      simp only [List.mem_map, List.mem_filter, List.mem_range, Prod.mk.injEq]
      constructor
      · rintro ⟨i1, ⟨_, hc⟩, rfl, rfl⟩
        rw [contains_eq_isSome_index] at hc
        by_cases hmem : i1 ∈ ops.map Prod.fst
        · obtain ⟨p, hp, hpi⟩ := List.mem_map.1 hmem
          exact ⟨p, hp, hpi, by rw [← hpi, h3 p hp]⟩
        · rw [h4 i1 hmem, index_default_ctor] at hc
          cases hc
      · rintro ⟨p, hp, rfl, rfl⟩
        refine ⟨p.1, ⟨by rw [hlen]; exact hr p hp, ?_⟩, rfl, h3 p hp⟩
        rw [contains_eq_isSome_index, h3 p hp]; rfl
    · refine List.Nodup.map ?_ ((List.nodup_range _).filter _)
      intro a b hab
      exact congrArg Prod.fst hab
    · refine List.Nodup.of_map Prod.fst ?_
      rw [List.map_map]
      exact hd
  · rw [List.map_map]
    have : (Prod.fst ∘ fun i => (i, s.index i)) = id := rfl
    rw [this, List.map_id]
    exact (List.sorted_lt_range _).filter _

end optional_array

/-! ## Runs on concrete containers -/

namespace optional_array

open base_optional_span base_optional_vector

/-- C4 on the container `[7, -, 9]`. -/
theorem iteration_visits_present_witness :
    ∃ l, visited ({ nof_elems := 2, vec := [some 7, none, some 9] } : base_optional_span Nat)
        = some l ∧
      (∀ i, i ∈ l ↔ base_optional_span.contains
        ({ nof_elems := 2, vec := [some 7, none, some 9] } : base_optional_span Nat) i = true) ∧
      l.Sorted (· < ·) ∧ l.Nodup ∧
      ((∀ i, base_optional_span.contains
        ({ nof_elems := 2, vec := [some 7, none, some 9] } : base_optional_span Nat) i = false) →
        l = []) :=
  iteration_visits_present { nof_elems := 2, vec := [some 7, none, some 9] } (by decide)

/-- C5, amended, on `insert(1, 10)`, `insert(0, 20)` into an empty array of capacity 2. -/
theorem iteration_in_index_order_witness :
    ∃ s l, inserts (default_ctor Nat 2) [(1, 10), (0, 20)] = some s ∧ range_for s = some l ∧
      l.Perm ([(1, 10), (0, 20)].map (fun p => (p.1, some p.2))) ∧
      (l.map Prod.fst).Sorted (· < ·) :=
  iteration_in_index_order 2 (by decide) [(1, 10), (0, 20)] (by decide) (by decide)

/-- The general guarantee of `insert` on the container `[7, -, 9]`, inserting 8 at the
absent position 1. -/
theorem insert_emplace_spec_witness :
    ∃ s1, base_optional_vector.insert
        ({ nof_elems := 2, vec := [some 7, none, some 9] } : base_optional_span Nat) 1 8
          = some s1 ∧
      emplace ({ nof_elems := 2, vec := [some 7, none, some 9] } : base_optional_span Nat) 1 8
          = some s1 ∧
      s1.contains 1 = true ∧ s1.index 1 = some 8 ∧ s1.size = 3 := by
  obtain ⟨s1, h1, h2, h3, h4, h5⟩ := insert_emplace_spec
    ({ nof_elems := 2, vec := [some 7, none, some 9] } : base_optional_span Nat) 1 8 (by decide)
  exact ⟨s1, h1, h2, h3, h4, (h5 ⟨by decide, by decide⟩).1 (by decide)⟩

/-- The general guarantee of `erase` on the container `[7, -, 9]`, erasing the present
position 0. -/
theorem erase_spec_witness :
    ∃ s1, erase ({ nof_elems := 2, vec := [some 7, none, some 9] } : base_optional_span Nat) 0
          = some s1 ∧
      s1.contains 0 = false ∧ erase s1 0 = some s1 ∧ s1.size + 1 = 2 := by
  obtain ⟨s1, h1, h2, h3, _, h5⟩ := erase_spec
    ({ nof_elems := 2, vec := [some 7, none, some 9] } : base_optional_span Nat) 0 (by decide)
  exact ⟨s1, h1, h2, h3, h5 ⟨by decide, by decide⟩ (by decide)⟩

/-- C9 on the array of capacity 3 after `insert(0, 1)`, `insert(1, 2)`, `erase(0)`. -/
theorem find_first_empty_reachable_witness :
    ∃ r, find_first_empty
        ({ nof_elems := 1, vec := [none, some 2, none] } : base_optional_span Nat) 0 = some r ∧
      r ≤ 3 ∧
      base_optional_span.contains
        ({ nof_elems := 1, vec := [none, some 2, none] } : base_optional_span Nat) r = false ∧
      (∀ k, k < r → base_optional_span.contains
        ({ nof_elems := 1, vec := [none, some 2, none] } : base_optional_span Nat) k = true) ∧
      ((∀ k, k < 3 → base_optional_span.contains
        ({ nof_elems := 1, vec := [none, some 2, none] } : base_optional_span Nat) k = true) →
        r = 3) :=
  find_first_empty_reachable 3 (by decide)
    [modifier.insert 0 1, modifier.insert 1 2, modifier.erase 0]
    { nof_elems := 1, vec := [none, some 2, none] } (by decide)

/-- C8, the run that fails: an `optional_array<std::unique_ptr<int>, 2>` (a pointer is
`some n` or the null pointer `none`, `reset()` makes it null) holding one element at
position 0. After `clear()`, `size()` is 0 and `empty()` is true, but `contains(0)` is still
true (the slot holds a null pointer), and a following `insert(0, u)` gives `size() = 0`,
not 1; a following `erase(0)` instead decrements `size()` from 0 to `2^64 - 1`. -/
theorem clear_keeps_slots_engaged :
    ((base_optional_vector.insert (default_ctor (Option Nat) 2) 0 (some 5)).bind
        (clear (fun _ => none))).map
          (fun s => (s.size, s.empty, s.contains 0, s.index 0, s.vec))
      = some (0, true, true, some none, [some none, none]) ∧
    (((base_optional_vector.insert (default_ctor (Option Nat) 2) 0 (some 5)).bind
        (clear (fun _ => none))).bind
          (fun s => base_optional_vector.insert s 0 (some 7))).map size
      = some 0 ∧
    (((base_optional_vector.insert (default_ctor (Option Nat) 2) 0 (some 5)).bind
        (clear (fun _ => none))).bind
          (fun s => erase s 0)).map size
      = some 18446744073709551615 :=
  ⟨rfl, rfl, rfl⟩

/-- C7, the run that fails: an `optional_array<std::unique_ptr<int>, 2>` after
`insert(0, p)` and `clear()`. The slot 0 is present (`contains(0)` is true) and `size()` is
0; `erase(0)` returns, and afterwards `contains(0)` is false but `size()` is `2^64 - 1`: it
has not decreased by 1. -/
theorem erase_after_clear_wraps_size :
    ((base_optional_vector.insert (default_ctor (Option Nat) 2) 0 (some 5)).bind
        (clear (fun _ => none))).map
          (fun s => (s.contains 0, s.size,
            (erase s 0).map (fun s1 => (s1.contains 0, s1.size))))
      = some (true, 0, some (false, 18446744073709551615)) :=
  rfl

/-- C6, the run that fails: an `optional_array<std::unique_ptr<int>, 2>` after
`insert(0, p)`, `clear()` and `erase(0)`. The slot 0 is absent (`contains(0)` is false) and
`size()` is `2^64 - 1`; `insert(0, u)` and `emplace(0, u)` return with `contains(0)` true,
and afterwards `size()` is 0: it has not grown by 1. -/
theorem insert_after_clear_erase_wraps_size :
    (((base_optional_vector.insert (default_ctor (Option Nat) 2) 0 (some 5)).bind
        (clear (fun _ => none))).bind (fun s => erase s 0)).map
          (fun s => (s.contains 0, s.size,
            (base_optional_vector.insert s 0 (some 7)).map (fun s1 => (s1.contains 0, s1.size)),
            (emplace s 0 (some 7)).map (fun s1 => (s1.contains 0, s1.size))))
      = some (false, 18446744073709551615, some (true, 0), some (true, 0)) :=
  rfl

end optional_array

namespace base_split_optional_span

/-- C10, the runs that fail: with the flags `[true, false]` the first empty position is 1
but `find_first_empty()` returns 0, a present position; with the flags `[false, true]` the
first empty position is 0 but it returns 1; with the flags `[false, false]` it returns
`len = 2`. In each case the result is the first present position. -/
theorem split_find_first_empty_returns_present :
    find_first_empty ({ ptr := [1, 2], present_ptr := [true, false], len := 2 } :
      base_split_optional_span Nat) 0 = some 0 ∧
    contains ({ ptr := [1, 2], present_ptr := [true, false], len := 2 } :
      base_split_optional_span Nat) 0 = true ∧
    find_first_empty ({ ptr := [1, 2], present_ptr := [false, true], len := 2 } :
      base_split_optional_span Nat) 0 = some 1 ∧
    contains ({ ptr := [1, 2], present_ptr := [false, true], len := 2 } :
      base_split_optional_span Nat) 0 = false ∧
    find_first_empty ({ ptr := [1, 2], present_ptr := [false, false], len := 2 } :
      base_split_optional_span Nat) 0 = some 2 := by
  decide

end base_split_optional_span

/-! ## What `clear` and the `find_first_empty` of `split_optional_span` compute -/

namespace base_split_optional_span

variable {T : Type}

/-- With enough fuel `operator++` of the split span stops at the next present position, or
at `len` when there is none. -/
theorem split_iterator_incr_spec (s : base_split_optional_span T)
    (hN : s.len < SIZE_T_CARD) :
    ∀ (fuel idx : Nat), idx < s.len → s.len - idx ≤ fuel →
      ∃ j, iterator_incr s fuel idx = some j ∧ idx < j ∧ j ≤ s.len ∧
        (j < s.len → s.contains j = true) ∧
        ∀ k, idx < k → k < j → s.contains k = false := by
  intro fuel
  induction fuel with
  | zero => intro idx h1 h2; omega
  | succ fuel ih =>
    intro idx h1 h2
    have hmod : (idx + 1) % SIZE_T_CARD = idx + 1 := Nat.mod_eq_of_lt (by omega)
    unfold iterator_incr
    simp only [hmod]
    by_cases hc : (decide (idx + 1 < s.len) && !(s.contains (idx + 1))) = true
    · rw [if_pos hc]
      simp only [Bool.and_eq_true, decide_eq_true_eq, Bool.not_eq_true'] at hc
      obtain ⟨j, hj, h3, h4, h5, h6⟩ := ih (idx + 1) hc.1 (by omega)
      refine ⟨j, hj, by omega, h4, h5, ?_⟩
      intro k hk hkj
      by_cases hk1 : k = idx + 1
      · rw [hk1]; exact hc.2
      · exact h6 k (by omega) hkj
    · rw [if_neg hc]
      refine ⟨idx + 1, rfl, by omega, by omega, ?_, fun k hk hkj => by omega⟩
      intro hlt
      simp only [Bool.and_eq_true, decide_eq_true_eq, Bool.not_eq_true', not_and,
        Bool.not_eq_false] at hc
      exact hc hlt

/-- For every split span and every `start_guess`, `find_first_empty` returns the first
position that is present (`len` when no position is present): every position before the
result is empty, and the result itself, when it is a position of the span, is present. -/
theorem split_find_first_empty_is_first_present (s : base_split_optional_span T)
    (hN : s.len < SIZE_T_CARD) (start_guess : Nat) :
    ∃ r, find_first_empty s start_guess = some r ∧ r ≤ s.len ∧
      (r < s.len → s.contains r = true) ∧ ∀ k, k < r → s.contains k = false := by
  unfold find_first_empty begin iterator_ctor
  by_cases hc : (decide (0 < s.len) && !(s.contains 0)) = true
  · rw [if_pos hc]
    simp only [Bool.and_eq_true, decide_eq_true_eq, Bool.not_eq_true'] at hc
    obtain ⟨j, hj, _, h4, h5, h6⟩ := split_iterator_incr_spec s hN (s.len + 1) 0 hc.1 (by omega)
    refine ⟨j, hj, h4, h5, ?_⟩
    intro k hk
    by_cases hk0 : k = 0
    · rw [hk0]; exact hc.2
    · exact h6 k (by omega) hk
  · rw [if_neg hc]
    simp only [Bool.and_eq_true, decide_eq_true_eq, Bool.not_eq_true', not_and,
      Bool.not_eq_false] at hc
    exact ⟨0, rfl, Nat.zero_le _, hc, fun k hk => by omega⟩

end base_split_optional_span

namespace base_optional_vector

open base_optional_span

variable {T : Type}

theorem index_eq_none_of_not_contains (s : base_optional_span T) (i : Nat)
    (h : s.contains i = false) : s.index i = none := by
  rw [contains_eq_isSome_index] at h
  cases hi : s.index i with
  | none => rfl
  | some v => rw [hi] at h; cases h

/-- The loop of `clear()` from a position that is present or is `vec.size()`: it returns,
keeps `nof_elems`, and applies `reset` to the element of every present slot from that
position on; no optional is disengaged. -/
theorem clear_loop_spec (reset : T → T) (n F : Nat) (hn : n < SIZE_T_CARD) (hF : n ≤ F) :
    ∀ (fuel : Nat) (s : base_optional_span T) (it : Nat), s.vec.length = n → it ≤ n →
      (it < n → s.contains it = true) → n - it + 1 ≤ fuel →
      ∃ s1, clear_loop reset F n fuel s it = some s1 ∧ s1.nof_elems = s.nof_elems ∧
        s1.vec.length = n ∧
        ∀ i, s1.index i = if it ≤ i then (s.index i).map reset else s.index i := by
  intro fuel
  induction fuel with
  | zero => intro s it _ _ _ h; omega
  | succ fuel ih =>
    intro s it hlen hle hpres hfuel
    unfold clear_loop
    by_cases he : it = n
    · rw [if_pos he]
      refine ⟨s, rfl, rfl, hlen, ?_⟩
      intro i
      by_cases hi : it ≤ i
      · rw [if_pos hi]
        have : s.index i = none := by
          unfold index; rw [dif_neg (by omega)]
        rw [this]; rfl
      · rw [if_neg hi]
    · rw [if_neg he]
      have hlt : it < s.vec.length := by omega
      have hidx : ∀ i,
          index
            ({ nof_elems := s.nof_elems,
               vec := s.vec.set it ((s.index it).map reset) } : base_optional_span T) i
            = if i = it then (s.index it).map reset else s.index i :=
        fun i => index_set s _ it _ i hlt
      have hlen1 : (s.vec.set it ((s.index it).map reset)).length = n := by
        rw [List.length_set]; exact hlen
      obtain ⟨j, hj, h3, h4, h5, h6⟩ := iterator_incr_spec
        ({ nof_elems := s.nof_elems,
           vec := s.vec.set it ((s.index it).map reset) } : base_optional_span T)
        (by show (s.vec.set it ((s.index it).map reset)).length < SIZE_T_CARD
            rw [hlen1]; exact hn)
        F it (by show it < (s.vec.set it ((s.index it).map reset)).length
                 rw [hlen1]; omega)
        (by show (s.vec.set it ((s.index it).map reset)).length - it ≤ F
            rw [hlen1]; omega)
      have h4n : j ≤ n := by
        have : j ≤ (s.vec.set it ((s.index it).map reset)).length := h4
        rw [hlen1] at this; exact this
      simp only [hj]
      obtain ⟨s1, hs1, hnof, hlen2, hall⟩ := ih _ j hlen1 h4n
        (fun hjn => h5 (by show j < (s.vec.set it ((s.index it).map reset)).length
                           rw [hlen1]; exact hjn))
        (by omega)
      refine ⟨s1, hs1, hnof, hlen2, ?_⟩
      intro i
      rw [hall i, hidx i]
      by_cases hij : j ≤ i
      · rw [if_pos hij, if_neg (by omega), if_pos (by omega)]
      · rw [if_neg hij]
        by_cases hii : i = it
        · rw [if_pos hii, if_pos (by omega), hii]
        · rw [if_neg hii]
          by_cases hlo : it ≤ i
          · rw [if_pos hlo]
            have hnc := h6 i (by omega) (by omega)
            have hnone := index_eq_none_of_not_contains _ i hnc
            rw [hidx i, if_neg hii] at hnone
            rw [hnone]; rfl
          · rw [if_neg hlo]

/-- For every element type with a `reset()` member and every container state, `clear()`
returns with `size() = 0` and `empty()` true, and has called `reset()` on the element of
every present slot; `contains(i)` is the same before and after, for every `i`. -/
theorem clear_spec (reset : T → T) (s : base_optional_span T)
    (hN : s.vec.length < SIZE_T_CARD) :
    ∃ s1, clear reset s = some s1 ∧ s1.size = 0 ∧ s1.empty = true ∧
      (∀ i, s1.index i = (s.index i).map reset) ∧
      (∀ i, s1.contains i = s.contains i) := by
  have key : ∃ s1, clear reset s = some s1 ∧ s1.nof_elems = 0 ∧
      (∀ i, s1.index i = (s.index i).map reset) := by
    have hs0 : ∀ i, index ({ nof_elems := 0, vec := s.vec } : base_optional_span T) i
        = s.index i := fun _ => rfl
    have hc0 : ∀ i, base_optional_span.contains
        ({ nof_elems := 0, vec := s.vec } : base_optional_span T) i = s.contains i :=
      fun _ => rfl
    have hend : end_ ({ nof_elems := 0, vec := s.vec } : base_optional_span T)
        (s.vec.length + 1) = some s.vec.length := by
      simp [end_, iterator_ctor]
    unfold clear
    simp only [hend]
    by_cases hc : (decide (0 < s.vec.length) && !(s.contains 0)) = true
    · have hb : begin ({ nof_elems := 0, vec := s.vec } : base_optional_span T)
          (s.vec.length + 1)
          = iterator_incr ({ nof_elems := 0, vec := s.vec } : base_optional_span T)
              (s.vec.length + 1) 0 := by
        simp only [begin, iterator_ctor, hc0]; rw [if_pos hc]
      simp only [Bool.and_eq_true, decide_eq_true_eq, Bool.not_eq_true'] at hc
      obtain ⟨j, hj, _, h4, h5, h6⟩ := iterator_incr_spec
        ({ nof_elems := 0, vec := s.vec } : base_optional_span T) hN
        (s.vec.length + 1) 0 hc.1 (Nat.le_succ_of_le (Nat.sub_le _ _))
      rw [hb, hj]
      simp only
      obtain ⟨s1, hs1, hnof, _, hall⟩ := clear_loop_spec reset s.vec.length
        (s.vec.length + 1) hN (Nat.le_succ _) (s.vec.length + 1)
        ({ nof_elems := 0, vec := s.vec } : base_optional_span T) j rfl h4 h5 (by omega)
      refine ⟨s1, hs1, hnof, ?_⟩
      intro i
      rw [hall i, hs0 i]
      by_cases hji : j ≤ i
      · rw [if_pos hji]
      · rw [if_neg hji]
        have hnc : s.contains i = false := by
          by_cases hi0 : i = 0
          · rw [hi0]; exact hc.2
          · have := h6 i (by omega) (by omega)
            rw [hc0 i] at this; exact this
        rw [index_eq_none_of_not_contains s i hnc]; rfl
    · have hb : begin ({ nof_elems := 0, vec := s.vec } : base_optional_span T)
          (s.vec.length + 1) = some 0 := by
        simp only [begin, iterator_ctor, hc0]; rw [if_neg hc]
      simp only [Bool.and_eq_true, decide_eq_true_eq, Bool.not_eq_true', not_and,
        Bool.not_eq_false] at hc
      rw [hb]
      simp only
      obtain ⟨s1, hs1, hnof, _, hall⟩ := clear_loop_spec reset s.vec.length
        (s.vec.length + 1) hN (Nat.le_succ _) (s.vec.length + 1)
        ({ nof_elems := 0, vec := s.vec } : base_optional_span T) 0 rfl (Nat.zero_le _)
        (fun h => by rw [hc0 0]; exact hc h) (by omega)
      refine ⟨s1, hs1, hnof, ?_⟩
      intro i
      rw [hall i, hs0 i, if_pos (Nat.zero_le _)]
  obtain ⟨s1, h1, h2, h3⟩ := key
  refine ⟨s1, h1, h2, ?_, h3, ?_⟩
  · show (s1.nof_elems == 0) = true
    rw [h2]; rfl
  · intro i
    rw [contains_eq_isSome_index, contains_eq_isSome_index, h3 i]
    cases s.index i <;> rfl

end base_optional_vector

/-! ## Growth of `optional_vector` -/

namespace optional_vector

open base_optional_span

variable {T : Type}

/-- Growing a vector keeps its elements and adds disengaged optionals. -/
theorem resize_grow (max_size : Nat) (vec : List (Option T)) (n : Nat)
    (hn : n ≤ max_size) (h : vec.length < n) :
    resize max_size vec n = some (vec ++ List.replicate (n - vec.length) none) := by
  unfold resize
  rw [if_neg (by omega), if_neg (by omega)]

theorem index_append_replicate (s : base_optional_span T) (n k j : Nat) :
    index ({ nof_elems := n, vec := s.vec ++ List.replicate k none } : base_optional_span T) j
      = s.index j := by
  unfold index
  simp only [List.length_append, List.length_replicate]
  by_cases hj : j < s.vec.length
  · rw [dif_pos (by omega), dif_pos hj, List.getElem_append_left hj]
  · rw [dif_neg hj]
    by_cases hj2 : j < s.vec.length + k
    · rw [dif_pos hj2, List.getElem_append_right (by omega)]
      simp
    · rw [dif_neg hj2]

/-- Counterexample to C11 as stated, on a library whose `max_size()` is `2^60 - 1`: for
`idx = 2^64 - 1`, the largest `size_t` value, the sum `idx + 1` wraps to 0, `resize(0)`
empties the vector and the bound assertion of the base `insert` fails; for
`idx = max_size()`, `resize(idx + 1)` throws `std::length_error`. -/
theorem insert_max_index_fails :
    optional_vector.insert 1152921504606846975
      ({ nof_elems := 1, vec := [some 7] } : base_optional_span Nat)
      18446744073709551615 9 = none ∧
    optional_vector.insert 1152921504606846975
      ({ nof_elems := 1, vec := [some 7] } : base_optional_span Nat)
      1152921504606846975 9 = none := by
  decide

/-- C11, amended: for every `optional_vector` state and every `idx` with
`idx + 1 ≤ max_size()`, `insert(idx, u)` (and `emplace(idx, u)`) returns; afterwards the
length is the larger of the old length and `idx + 1`, `contains(idx)` holds with
`operator[](idx) = u`, every other previously present index is still present with the same
value, and every newly created slot other than `idx` is absent. -/
theorem insert_grows (max_size : Nat) (s : base_optional_span T) (idx : Nat) (u : T)
    (hmax : max_size < SIZE_T_CARD) (hidx : idx + 1 ≤ max_size) :
    ∃ s1, optional_vector.insert max_size s idx u = some s1 ∧
      optional_vector.emplace max_size s idx u = some s1 ∧
      idx + 1 ≤ s1.vec.length ∧ s1.vec.length = Nat.max s.vec.length (idx + 1) ∧
      s1.contains idx = true ∧ s1.index idx = some u ∧
      (∀ j, j ≠ idx → s.contains j = true →
        s1.contains j = true ∧ s1.index j = s.index j) ∧
      (∀ j, s.vec.length ≤ j → j ≠ idx → s1.contains j = false) := by
  have hmod : (idx + 1) % SIZE_T_CARD = idx + 1 := Nat.mod_eq_of_lt (by omega)
  -- the state handed to the base `insert`
  obtain ⟨s0, hins, hemp, hlen0, hidx0⟩ : ∃ s0 : base_optional_span T,
      optional_vector.insert max_size s idx u = base_optional_vector.insert s0 idx u ∧
      optional_vector.emplace max_size s idx u = base_optional_vector.emplace s0 idx u ∧
      s0.vec.length = Nat.max s.vec.length (idx + 1) ∧
      ∀ j, s0.index j = s.index j := by
    by_cases hge : s.vec.length ≤ idx
    · have hres := resize_grow max_size s.vec (idx + 1) hidx (by omega)
      refine ⟨{ nof_elems := s.nof_elems,
                vec := s.vec ++ List.replicate (idx + 1 - s.vec.length) none }, ?_, ?_, ?_, ?_⟩
      · unfold optional_vector.insert
        rw [if_pos hge, hmod, hres]
      · unfold optional_vector.emplace
        rw [if_pos hge, hmod, hres]
      · show (s.vec ++ List.replicate (idx + 1 - s.vec.length) none).length = _
        rw [List.length_append, List.length_replicate]
        have hm : Nat.max s.vec.length (idx + 1) = idx + 1 := Nat.max_eq_right (by omega)
        rw [hm]
        omega
      · intro j
        exact index_append_replicate s _ _ j
    · refine ⟨s, ?_, ?_, ?_, fun _ => rfl⟩
      · unfold optional_vector.insert
        rw [if_neg hge]
      · unfold optional_vector.emplace
        rw [if_neg hge]
      · exact (Nat.max_eq_left (by omega)).symm
  have hlt : idx < s0.vec.length := by
    rw [hlen0]; exact Nat.lt_of_lt_of_le (Nat.lt_succ_self idx) (Nat.le_max_right _ _)
  have hidxs : ∀ j,
      index
        ({ nof_elems := (s0.nof_elems + (if s0.contains idx then 0 else 1)) % SIZE_T_CARD,
           vec := s0.vec.set idx (some u) } : base_optional_span T) j
        = if j = idx then some u else s.index j := by
    intro j
    rw [index_set s0 _ idx _ j hlt, hidx0 j]
  refine ⟨{ nof_elems := (s0.nof_elems + (if s0.contains idx then 0 else 1)) % SIZE_T_CARD,
            vec := s0.vec.set idx (some u) }, ?_, ?_, ?_, ?_, ?_, ?_, ?_, ?_⟩
  · rw [hins]
    simp only [base_optional_vector.insert, srsgnb_assert, hlt, decide_True, if_true]
  · rw [hemp]
    simp only [base_optional_vector.emplace, srsgnb_assert, hlt, decide_True, if_true]
  · show idx + 1 ≤ (s0.vec.set idx (some u)).length
    rw [List.length_set]; omega
  · show (s0.vec.set idx (some u)).length = _
    rw [List.length_set]; exact hlen0
  · rw [contains_eq_isSome_index, hidxs idx, if_pos rfl]; rfl
  · rw [hidxs idx, if_pos rfl]
  · intro j hj hc
    rw [contains_eq_isSome_index, hidxs j, if_neg hj]
    rw [contains_eq_isSome_index] at hc
    exact ⟨hc, rfl⟩
  · intro j hj hne
    rw [contains_eq_isSome_index, hidxs j, if_neg hne]
    have : s.index j = none := by
      unfold index; rw [dif_neg (by omega)]
    rw [this]; rfl

/-- C11, amended, on the vector `[7]` with `max_size() = 2^60 - 1`: inserting at index 3
grows it to length 4. -/
theorem insert_grows_witness :
    ∃ s1, optional_vector.insert 1152921504606846975
        ({ nof_elems := 1, vec := [some 7] } : base_optional_span Nat) 3 9 = some s1 ∧
      optional_vector.emplace 1152921504606846975
        ({ nof_elems := 1, vec := [some 7] } : base_optional_span Nat) 3 9 = some s1 ∧
      3 + 1 ≤ s1.vec.length ∧ s1.contains 3 = true ∧ s1.index 3 = some 9 ∧
      s1.index 0 = some 7 ∧ s1.contains 1 = false := by
  obtain ⟨s1, h1, h2, h3, _, h5, h6, h7, h8⟩ := insert_grows 1152921504606846975
    ({ nof_elems := 1, vec := [some 7] } : base_optional_span Nat) 3 9 (by decide) (by decide)
  exact ⟨s1, h1, h2, h3, h5, h6, (h7 0 (by decide) (by decide)).2,
    h8 1 (by decide) (by decide)⟩

end optional_vector

/-! ## Header fields and identifiers -/

/-- C12: the D/C field takes the code 0 for `control` and 1 for `data`, and every code is
below 2, so it fits one bit. -/
theorem dc_field_codes :
    rlc_dc_field.control.to_number = 0 ∧ rlc_dc_field.data.to_number = 1 ∧
    ∀ dc : rlc_dc_field, dc.to_number < 2 := by
  refine ⟨rfl, rfl, ?_⟩
  intro dc
  cases dc <;> decide

/-- C13: `to_number` is injective on `rlc_si_field`, every code is below 4, the codes are
`full_sdu = 0`, `first_segment = 1`, `last_segment = 2`, `middle_segment = 3`, and the
formatter reads its table in bounds and writes "full", "first", "last", "middle"
for them. -/
theorem si_field_codes_and_names :
    (∀ a b : rlc_si_field, a.to_number = b.to_number → a = b) ∧
    (∀ si : rlc_si_field, si.to_number < 4 ∧ si.to_number < rlc_si_field.options.length) ∧
    rlc_si_field.full_sdu.to_number = 0 ∧ rlc_si_field.first_segment.to_number = 1 ∧
    rlc_si_field.last_segment.to_number = 2 ∧ rlc_si_field.middle_segment.to_number = 3 ∧
    rlc_si_field.full_sdu.format = some "full" ∧
    rlc_si_field.first_segment.format = some "first" ∧
    rlc_si_field.last_segment.format = some "last" ∧
    rlc_si_field.middle_segment.format = some "middle" := by
  refine ⟨?_, ?_, rfl, rfl, rfl, rfl, rfl, rfl, rfl, rfl⟩
  · intro a b h
    cases a <;> cases b <;> first | rfl | (exact absurd h (by decide))
  · intro si
    cases si <;> exact ⟨by decide, by decide⟩

/-- C14: every `x` in `0..255` converts to a PDU session id between `min` and `max`,
different from `invalid`, that converts back to `x`; every `y` in `0..63` does so for the
QoS flow id; the `invalid` sentinels convert to 256 and 64, outside these ranges. -/
theorem id_conversions :
    (∀ x, x ≤ 255 →
      pdu_session_id_t.min.val ≤ (uint_to_pdu_session_id x).val ∧
      (uint_to_pdu_session_id x).val ≤ pdu_session_id_t.max.val ∧
      uint_to_pdu_session_id x ≠ pdu_session_id_t.invalid ∧
      pdu_session_id_to_uint (uint_to_pdu_session_id x) = x) ∧
    (∀ y, y ≤ 63 →
      qos_flow_id_t.min.val ≤ (uint_to_qos_flow_id y).val ∧
      (uint_to_qos_flow_id y).val ≤ qos_flow_id_t.max.val ∧
      uint_to_qos_flow_id y ≠ qos_flow_id_t.invalid ∧
      qos_flow_id_to_uint (uint_to_qos_flow_id y) = y) ∧
    pdu_session_id_to_uint pdu_session_id_t.invalid = 256 ∧
    qos_flow_id_to_uint qos_flow_id_t.invalid = 64 ∧
    pdu_session_id_t.max.val = 255 ∧ qos_flow_id_t.max.val = 63 := by
  refine ⟨?_, ?_, rfl, rfl, rfl, rfl⟩
  · intro x hx
    have hm : x % 2 ^ 16 = x := Nat.mod_eq_of_lt (by omega)
    refine ⟨Nat.zero_le _, ?_, ?_, ?_⟩
    · show x % 2 ^ 16 ≤ 256 - 1
      omega
    · intro h
      have h2 : x % 2 ^ 16 = 256 := congrArg pdu_session_id_t.val h
      omega
    · show x % 2 ^ 16 % 2 ^ 16 = x
      rw [hm, hm]
  · intro y hy
    have hm : y % 2 ^ 8 = y := Nat.mod_eq_of_lt (by omega)
    refine ⟨Nat.zero_le _, ?_, ?_, ?_⟩
    · show y % 2 ^ 8 ≤ 64 - 1
      omega
    · intro h
      have h2 : y % 2 ^ 8 = 64 := congrArg qos_flow_id_t.val h
      omega
    · show y % 2 ^ 8 % 2 ^ 8 = y
      rw [hm, hm]

/-- C14 at `x = 255` and `y = 63`, the largest valid identifiers. -/
theorem id_conversions_witness :
    pdu_session_id_to_uint (uint_to_pdu_session_id 255) = 255 ∧
    qos_flow_id_to_uint (uint_to_qos_flow_id 63) = 63 :=
  ⟨(id_conversions.1 255 (by decide)).2.2.2, (id_conversions.2.1 63 (by decide)).2.2.2⟩

/-! ## Composition of the UM entity -/

/-- C15: for every `du_index`, `lcid` and `rlc_um_config`, the constructed `rlc_um_entity`
has `tx` and `rx` set; `tx` is an `rlc_tx_um_entity` built from `config.tx` and `rx` is an
`rlc_rx_um_entity` built from `config.rx`, both with the `du_index` and `lcid` of the base
entity, which are the ones given to the constructor. -/
theorem um_entity_composition (du_index : du_ue_index_t) (lcid : lcid_t)
    (config : rlc_um_config) :
    (rlc_um_entity.rlc_um_entity du_index lcid config).tx.isSome = true ∧
    (rlc_um_entity.rlc_um_entity du_index lcid config).rx.isSome = true ∧
    (∃ t, (rlc_um_entity.rlc_um_entity du_index lcid config).tx = some (rlc_tx_entity.um t) ∧
      t.config = config.tx ∧
      t.du_index = (rlc_um_entity.rlc_um_entity du_index lcid config).du_index ∧
      t.lcid = (rlc_um_entity.rlc_um_entity du_index lcid config).lcid) ∧
    (∃ r, (rlc_um_entity.rlc_um_entity du_index lcid config).rx = some (rlc_rx_entity.um r) ∧
      r.config = config.rx ∧
      r.du_index = (rlc_um_entity.rlc_um_entity du_index lcid config).du_index ∧
      r.lcid = (rlc_um_entity.rlc_um_entity du_index lcid config).lcid) ∧
    (rlc_um_entity.rlc_um_entity du_index lcid config).du_index = du_index ∧
    (rlc_um_entity.rlc_um_entity du_index lcid config).lcid = lcid :=
  ⟨rfl, rfl, ⟨_, rfl, rfl, rfl, rfl⟩, ⟨_, rfl, rfl, rfl, rfl⟩, rfl, rfl⟩

/-! ## The window bound of the AM Tx entity -/

theorem sn_distance_of_le (m a b : Nat) (hab : a ≤ b) (hb : b < m) :
    sn_distance m a b = b - a := by
  unfold sn_distance
  have h : b + m - a = (b - a) + m := by omega
  rw [h, Nat.add_mod_right]
  exact Nat.mod_eq_of_lt (by omega)

theorem sn_distance_of_gt (m a b : Nat) (hba : b < a) (ha : a < m) :
    sn_distance m a b = b + m - a := by
  unfold sn_distance
  exact Nat.mod_eq_of_lt (by omega)

theorem sn_distance_lt (m a b : Nat) (ha : a < m) (hb : b < m) : sn_distance m a b < m := by
  by_cases h : a ≤ b
  · rw [sn_distance_of_le m a b h hb]; omega
  · rw [sn_distance_of_gt m a b (by omega) ha]; omega

/-- One step forward from `b` is one more step of distance, while the distance stays
below `m`. -/
theorem sn_distance_succ (m a b : Nat) (ha : a < m) (hb : b < m)
    (h : sn_distance m a b + 1 < m) :
    (b + 1) % m < m ∧ sn_distance m a ((b + 1) % m) = sn_distance m a b + 1 := by
  by_cases hbm : b + 1 < m
  · rw [Nat.mod_eq_of_lt hbm]
    refine ⟨hbm, ?_⟩
    by_cases hab : a ≤ b
    · rw [sn_distance_of_le m a b hab hb, sn_distance_of_le m a (b + 1) (by omega) hbm]
      omega
    · rw [sn_distance_of_gt m a b (by omega) ha] at h ⊢
      by_cases hab1 : a ≤ b + 1
      · omega
      · rw [sn_distance_of_gt m a (b + 1) (by omega) ha]; omega
  · have hbe : b + 1 = m := by omega
    have h0 : (b + 1) % m = 0 := by rw [hbe]; exact Nat.mod_self m
    rw [h0]
    refine ⟨by omega, ?_⟩
    by_cases hab : a ≤ b
    · by_cases ha0 : a = 0
      · rw [sn_distance_of_le m a b hab hb] at h; omega
      · rw [sn_distance_of_le m a b hab hb, sn_distance_of_gt m a 0 (by omega) ha]; omega
    · omega

/-- Moving the origin forward from `a` to `c` shortens the distance to every `x` that is
not before `c`. -/
theorem sn_distance_shift (m a c x : Nat) (ha : a < m) (hc : c < m) (hx : x < m)
    (h : sn_distance m a c ≤ sn_distance m a x) :
    sn_distance m c x = sn_distance m a x - sn_distance m a c := by
  by_cases h1 : a ≤ c
  · rw [sn_distance_of_le m a c h1 hc] at h ⊢
    by_cases h2 : a ≤ x
    · rw [sn_distance_of_le m a x h2 hx] at h ⊢
      rw [sn_distance_of_le m c x (by omega) hx]; omega
    · rw [sn_distance_of_gt m a x (by omega) ha] at h ⊢
      rw [sn_distance_of_gt m c x (by omega) hc]; omega
  · rw [sn_distance_of_gt m a c (by omega) ha] at h ⊢
    by_cases h2 : a ≤ x
    · rw [sn_distance_of_le m a x h2 hx] at h ⊢
      omega
    · rw [sn_distance_of_gt m a x (by omega) ha] at h ⊢
      rw [sn_distance_of_le m c x (by omega) hx]; omega

/-- A strictly increasing list of numbers below `d` has at most `d` elements. -/
theorem length_le_of_pairwise_lt (l : List Nat) (d : Nat) (hp : l.Pairwise (· < ·))
    (hd : ∀ x ∈ l, x < d) : l.length ≤ d := by
  have hnd : l.Nodup := hp.imp (fun h => Nat.ne_of_lt h)
  have hsub : l ⊆ List.range d := fun x hx => List.mem_range.2 (hd x hx)
  have := (List.subperm_of_subset hnd hsub).length_le
  rwa [List.length_range] at this

namespace rlc_tx_am_entity

theorem window_inv_of_eq (m w : Nat) (s s1 : rlc_tx_am_state) (h : window_inv m w s)
    (h1 : s1.tx_next_ack = s.tx_next_ack) (h2 : s1.tx_next = s.tx_next)
    (h3 : outstanding s1 = outstanding s) : window_inv m w s1 := by
  unfold window_inv
  rw [h1, h2, h3]
  exact h

theorem map_sn_retransmit_oldest (l : List rlc_tx_am_pdu_record) :
    (retransmit_oldest l).map (fun r => r.sn) = l.map (fun r => r.sn) := by
  induction l with
  | nil => rfl
  | cons r rs ih =>
    unfold retransmit_oldest
    by_cases hr : r.retx_pending = true
    · rw [if_pos hr]; rfl
    · rw [if_neg hr, List.map_cons, List.map_cons, ih]

/-- The outstanding SNs after a status report: those not before `ACK_SN`. -/
theorem outstanding_handle_status_report (m : Nat) (s : rlc_tx_am_state) (ack_sn : Nat)
    (nack_sns : List Nat) :
    outstanding (handle_status_report m s ack_sn nack_sns) =
      (outstanding s).filter (fun x =>
        decide (sn_distance m s.tx_next_ack (ack_sn % m) ≤ sn_distance m s.tx_next_ack x)) := by
  unfold outstanding handle_status_report
  simp only [List.map_map, List.filter_map]
  apply List.map_congr_left
  intro r _
  show (if r.sn ∈ nack_sns then
    ({ sn := r.sn, retx_pending := true, retx_count := r.retx_count } : rlc_tx_am_pdu_record)
    else r).sn = r.sn
  split <;> rfl

/-- Assigning the SN `TX_Next` while the window is not full keeps the invariant. -/
theorem window_inv_assign (m w : Nat) (hwm : w < m) (s s1 : rlc_tx_am_state)
    (h : window_inv m w s) (hfree : sn_distance m s.tx_next_ack s.tx_next < w)
    (h1 : s1.tx_next_ack = s.tx_next_ack) (h2 : s1.tx_next = (s.tx_next + 1) % m)
    (h3 : outstanding s1 = outstanding s ++ [s.tx_next]) : window_inv m w s1 := by
  obtain ⟨ha, hn, hp, hb, _⟩ := h
  obtain ⟨hn1, hd1⟩ := sn_distance_succ m s.tx_next_ack s.tx_next ha hn (by omega)
  unfold window_inv
  rw [h1, h2, h3]
  refine ⟨ha, hn1, ?_, ?_, ?_⟩
  · rw [List.pairwise_append]
    refine ⟨hp, List.pairwise_singleton _ _, ?_⟩
    intro x hx y hy
    rw [List.mem_singleton] at hy
    rw [hy]
    exact (hb x hx).2
  · intro x hx
    rw [hd1]
    rcases List.mem_append.1 hx with hx | hx
    · exact ⟨(hb x hx).1, Nat.lt_succ_of_lt (hb x hx).2⟩
    · rw [List.mem_singleton] at hx
      rw [hx]
      exact ⟨hn, Nat.lt_succ_self _⟩
  · intro _
    rw [hd1]
    omega

/-- A status report keeps the invariant, whatever its `ACK_SN`. -/
theorem window_inv_handle_status_report (m w : Nat) (hm : 0 < m) (s : rlc_tx_am_state)
    (h : window_inv m w s) (ack_sn : Nat) (nack_sns : List Nat) :
    window_inv m w (handle_status_report m s ack_sn nack_sns) := by
  obtain ⟨ha, hn, hp, hb, hw⟩ := h
  have hc : ack_sn % m < m := Nat.mod_lt _ hm
  have hout := outstanding_handle_status_report m s ack_sn nack_sns
  have hack : (handle_status_report m s ack_sn nack_sns).tx_next_ack = ack_sn % m := rfl
  have hnext : (handle_status_report m s ack_sn nack_sns).tx_next = s.tx_next := rfl
  have hmem : ∀ x, x ∈ outstanding (handle_status_report m s ack_sn nack_sns) →
      x ∈ outstanding s ∧
      sn_distance m s.tx_next_ack (ack_sn % m) ≤ sn_distance m s.tx_next_ack x := by
    intro x hx
    rw [hout, List.mem_filter] at hx
    exact ⟨hx.1, of_decide_eq_true hx.2⟩
  have hshift : ∀ x, x ∈ outstanding (handle_status_report m s ack_sn nack_sns) →
      sn_distance m (ack_sn % m) x =
        sn_distance m s.tx_next_ack x - sn_distance m s.tx_next_ack (ack_sn % m) :=
    fun x hx => sn_distance_shift m _ _ x ha hc (hb x (hmem x hx).1).1 (hmem x hx).2
  have hnextshift : ∀ x, x ∈ outstanding (handle_status_report m s ack_sn nack_sns) →
      sn_distance m (ack_sn % m) s.tx_next =
        sn_distance m s.tx_next_ack s.tx_next - sn_distance m s.tx_next_ack (ack_sn % m) := by
    intro x hx
    have h1 := (hmem x hx).2
    have h2 := (hb x (hmem x hx).1).2
    exact sn_distance_shift m _ _ s.tx_next ha hc hn (by omega)
  unfold window_inv
  rw [hack, hnext]
  refine ⟨hc, hn, ?_, ?_, ?_⟩
  · have hp2 : (outstanding (handle_status_report m s ack_sn nack_sns)).Pairwise
        (fun x y => sn_distance m s.tx_next_ack x < sn_distance m s.tx_next_ack y) := by
      rw [hout]; exact hp.filter _
    refine hp2.imp_of_mem ?_
    intro x y hx hy hxy
    rw [hshift x hx, hshift y hy]
    have := (hmem x hx).2
    omega
  · intro x hx
    refine ⟨(hb x (hmem x hx).1).1, ?_⟩
    rw [hshift x hx, hnextshift x hx]
    have h1 := (hmem x hx).2
    have h2 := (hb x (hmem x hx).1).2
    omega
  · intro hne
    obtain ⟨x, hx⟩ := List.exists_mem_of_ne_nil _ hne
    rw [hnextshift x hx]
    have hne0 : outstanding s ≠ [] := List.ne_nil_of_mem (hmem x hx).1
    have := hw hne0
    omega

/-- A pull keeps the invariant. -/
theorem window_inv_pull_pdu (m w max_retx_thresh hdr_base so_len : Nat) (hwm : w < m)
    (s : rlc_tx_am_state) (h : window_inv m w s) (max_bytes : Nat) :
    window_inv m w (pull_pdu m w max_retx_thresh hdr_base so_len s max_bytes) := by
  unfold pull_pdu
  split
  · exact window_inv_of_eq m w s _ h rfl rfl (map_sn_retransmit_oldest _)
  · split
    · split
      · exact h
      · exact window_inv_of_eq m w s _ h rfl rfl rfl
    · split
      · exact h
      · split
        · rename_i hfree
          split
          · exact window_inv_assign m w hwm s _ h hfree rfl rfl (by simp [outstanding])
          · split
            · exact h
            · exact window_inv_assign m w hwm s _ h hfree rfl rfl (by simp [outstanding])
        · exact h

/-- With a full window a pull assigns no SN: `TX_Next` and the outstanding SNs stay. -/
theorem pull_pdu_stalls (m w max_retx_thresh hdr_base so_len : Nat) (s : rlc_tx_am_state)
    (hfull : w ≤ sn_distance m s.tx_next_ack s.tx_next) (max_bytes : Nat) :
    (pull_pdu m w max_retx_thresh hdr_base so_len s max_bytes).tx_next = s.tx_next ∧
    outstanding (pull_pdu m w max_retx_thresh hdr_base so_len s max_bytes) = outstanding s := by
  unfold pull_pdu
  split
  · exact ⟨rfl, map_sn_retransmit_oldest _⟩
  · split
    · split
      · exact ⟨rfl, rfl⟩
      · exact ⟨rfl, rfl⟩
    · split
      · exact ⟨rfl, rfl⟩
      · split
        · rename_i hfree
          omega
        · exact ⟨rfl, rfl⟩

theorem window_inv_step (m w max_retx_thresh hdr_base so_len : Nat) (hw : 0 < w)
    (hwm : w < m) (s : rlc_tx_am_state) (h : window_inv m w s) (e : rlc_tx_am_event) :
    window_inv m w (step m w max_retx_thresh hdr_base so_len s e) := by
  cases e with
  | submit_sdu len => exact window_inv_of_eq m w s _ h rfl rfl rfl
  | pull_pdu max_bytes => exact window_inv_pull_pdu m w _ _ _ hwm s h max_bytes
  | handle_status_report ack_sn nack_sns =>
    exact window_inv_handle_status_report m w (by omega) s h ack_sn nack_sns
  | t_poll_retx_expiry =>
    refine window_inv_of_eq m w s _ h rfl rfl ?_
    show outstanding (t_poll_retx_expiry s) = outstanding s
    unfold outstanding t_poll_retx_expiry
    rw [List.map_map]
    rfl

theorem window_inv_foldl (m w max_retx_thresh hdr_base so_len : Nat) (hw : 0 < w)
    (hwm : w < m) : ∀ (events : List rlc_tx_am_event) (s : rlc_tx_am_state),
    window_inv m w s →
      window_inv m w (events.foldl (step m w max_retx_thresh hdr_base so_len) s) := by
  intro events
  induction events with
  | nil => intro s h; exact h
  | cons e es ih =>
    intro s h
    exact ih _ (window_inv_step m w _ _ _ hw hwm s h e)

theorem window_inv_initial (m w : Nat) (hm : 0 < m) : window_inv m w initial := by
  refine ⟨hm, hm, List.Pairwise.nil, ?_, ?_⟩
  · intro x hx; cases hx
  · intro h; exact absurd rfl h

/-- The invariant bounds the number of outstanding SNs by the window size, they are
pairwise different, and when their number is the window size the window is full. -/
theorem window_inv_bound (m w : Nat) (s : rlc_tx_am_state) (h : window_inv m w s) :
    (outstanding s).length ≤ w ∧ (outstanding s).Nodup ∧
    ((outstanding s).length = w → 0 < w → w ≤ sn_distance m s.tx_next_ack s.tx_next) := by
  obtain ⟨_, _, hp, hb, hw⟩ := h
  have hlen : (outstanding s).length ≤ sn_distance m s.tx_next_ack s.tx_next := by
    have h1 : ((outstanding s).map (fun x => sn_distance m s.tx_next_ack x)).Pairwise
        (· < ·) := List.pairwise_map.2 hp
    have h2 := length_le_of_pairwise_lt _ (sn_distance m s.tx_next_ack s.tx_next) h1
      (fun y hy => by
        obtain ⟨x, hx, rfl⟩ := List.mem_map.1 hy
        exact (hb x hx).2)
    rwa [List.length_map] at h2
  refine ⟨?_, ?_, ?_⟩
  · by_cases hne : outstanding s = []
    · rw [hne]; exact Nat.zero_le _
    · exact Nat.le_trans hlen (hw hne)
  · refine hp.imp ?_
    intro x y hxy hEq
    rw [hEq] at hxy
    exact Nat.lt_irrefl _ hxy
  · intro hl _
    omega

theorem config_window (cfg : rlc_tx_am_config) :
    window_size cfg.sn_field_length.to_number
      = some (2 ^ (cfg.sn_field_length.to_number - 1)) ∧
    am_window_size cfg = 2 ^ (cfg.sn_field_length.to_number - 1) ∧
    0 < am_window_size cfg ∧ am_window_size cfg < sn_modulus cfg := by
  unfold am_window_size sn_modulus
  cases cfg.sn_field_length
  · exact ⟨rfl, rfl, by decide, by decide⟩
  · exact ⟨rfl, rfl, by decide, by decide⟩

/-- C16: for every AM Tx entity configured with `sn_field_length = k` and every sequence
of `submit_sdu`, `pull_pdu`, status-report and `t_poll_retx` events from its construction,
the number of unacknowledged SNs outstanding is at most `window_size(k) = 2^(k-1)` and no
SN is outstanding twice; when that number is the window size, `pull_pdu` assigns no new SN
(`TX_Next` and the outstanding SNs are unchanged). -/
theorem am_tx_window_bound (cfg : rlc_tx_am_config) (hdr_base so_len : Nat)
    (events : List rlc_tx_am_event) :
    window_size cfg.sn_field_length.to_number
      = some (2 ^ (cfg.sn_field_length.to_number - 1)) ∧
    am_window_size cfg = 2 ^ (cfg.sn_field_length.to_number - 1) ∧
    (outstanding (run cfg hdr_base so_len events)).length ≤ am_window_size cfg ∧
    (outstanding (run cfg hdr_base so_len events)).Nodup ∧
    ∀ max_bytes,
      (outstanding (run cfg hdr_base so_len events)).length = am_window_size cfg →
      (pull_pdu (sn_modulus cfg) (am_window_size cfg) cfg.max_retx_thresh hdr_base so_len
          (run cfg hdr_base so_len events) max_bytes).tx_next
        = (run cfg hdr_base so_len events).tx_next ∧
      outstanding (pull_pdu (sn_modulus cfg) (am_window_size cfg) cfg.max_retx_thresh
          hdr_base so_len (run cfg hdr_base so_len events) max_bytes)
        = outstanding (run cfg hdr_base so_len events) := by
  obtain ⟨h1, h2, hw, hwm⟩ := config_window cfg
  have hinv : window_inv (sn_modulus cfg) (am_window_size cfg)
      (run cfg hdr_base so_len events) :=
    window_inv_foldl _ _ _ _ _ hw hwm events initial
      (window_inv_initial _ _ (by omega))
  obtain ⟨hb1, hb2, hb3⟩ := window_inv_bound _ _ _ hinv
  refine ⟨h1, h2, hb1, hb2, ?_⟩
  intro max_bytes hlen
  exact pull_pdu_stalls _ _ _ _ _ _ (hb3 hlen hw) max_bytes

/-- C16 on a 12-bit entity after three SDUs were submitted and pulled: three SNs are
outstanding, within the window of 2048. -/
theorem am_tx_window_bound_witness :
    (outstanding (run
      { sn_field_length := rlc_am_sn_size.size12bits, t_poll_retx := 45, max_retx_thresh := 4,
        poll_pdu := 4, poll_byte := 25 } 2 2
      [rlc_tx_am_event.submit_sdu 10, rlc_tx_am_event.submit_sdu 100,
       rlc_tx_am_event.submit_sdu 5, rlc_tx_am_event.pull_pdu 50,
       rlc_tx_am_event.pull_pdu 50, rlc_tx_am_event.pull_pdu 50,
       rlc_tx_am_event.pull_pdu 50, rlc_tx_am_event.pull_pdu 50])).length
      ≤ am_window_size
        { sn_field_length := rlc_am_sn_size.size12bits, t_poll_retx := 45,
          max_retx_thresh := 4, poll_pdu := 4, poll_byte := 25 } :=
  (am_tx_window_bound
    { sn_field_length := rlc_am_sn_size.size12bits, t_poll_retx := 45, max_retx_thresh := 4,
      poll_pdu := 4, poll_byte := 25 } 2 2
    [rlc_tx_am_event.submit_sdu 10, rlc_tx_am_event.submit_sdu 100,
     rlc_tx_am_event.submit_sdu 5, rlc_tx_am_event.pull_pdu 50,
     rlc_tx_am_event.pull_pdu 50, rlc_tx_am_event.pull_pdu 50,
     rlc_tx_am_event.pull_pdu 50, rlc_tx_am_event.pull_pdu 50]).2.2.1

end rlc_tx_am_entity

/-! ## Segmentation by the UM Tx entity and reassembly by the UM Rx entity -/

namespace rlc_um_entity

open rlc_tx_um_entity rlc_rx_um_entity

theorem chain_nil_bytes (off : Nat) (segs : List rlc_rx_um_segment)
    (h : chain off segs []) : segs = [] := by
  cases segs with
  | nil => rfl
  | cons g gs =>
    obtain ⟨_, _, hne, rest, hb, _⟩ := h
    have : g.payload = [] := (List.append_eq_nil.1 hb.symm).1
    exact absurd this hne

/-- The loop of `release` ends because the SDU of `RX_Next` is not complete, never because
the bound on its rounds is reached. -/
theorem release_loop_ends (m : Nat) :
    ∀ (fuel : Nat) (s : rlc_rx_um_state), s.completed.length ≤ fuel →
      buffered (release_loop m fuel s).2.rx_next (release_loop m fuel s).2.completed
        = none := by
  intro fuel
  induction fuel with
  | zero =>
    intro s h
    have hnil : s.completed = [] := List.length_eq_zero.1 (Nat.le_zero.1 h)
    show buffered s.rx_next s.completed = none
    rw [hnil]
    rfl
  | succ fuel ih =>
    intro s h
    cases hb : buffered s.rx_next s.completed with
    | none =>
      have hr : release_loop m (fuel + 1) s = ([], s) := by
        rw [release_loop]
        simp only [hb]
      rw [hr]
      exact hb
    | some sdu =>
      have hr : (release_loop m (fuel + 1) s).2 =
          (release_loop m fuel
            { rx_next := (s.rx_next + 1) % m, reassembly := s.reassembly,
              completed := s.completed.filter (fun e => decide (e.1 ≠ s.rx_next)) }).2 := by
        rw [release_loop]
        simp only [hb]
      rw [hr]
      apply ih
      show (s.completed.filter (fun e => decide (e.1 ≠ s.rx_next))).length ≤ fuel
      have hmem : ∃ e ∈ s.completed, e.1 = s.rx_next := by
        generalize s.completed = l at hb
        induction l with
        | nil => exact Option.noConfusion hb
        | cons e t iht =>
          by_cases he : e.1 = s.rx_next
          · exact ⟨e, List.mem_cons_self _ _, he⟩
          · rw [buffered, if_neg he] at hb
            obtain ⟨x, hx, hx1⟩ := iht hb
            exact ⟨x, List.mem_cons_of_mem _ hx, hx1⟩
      obtain ⟨e, he, he1⟩ := hmem
      have hlt : (s.completed.filter (fun e => decide (e.1 ≠ s.rx_next))).length
          < s.completed.length := by
        apply List.length_filter_lt_length_iff_exists.2
        exact ⟨e, he, by simp [he1]⟩
      omega

/-- A PDU that arrives a second time is discarded: the full SDU with SN 0 arrives twice at
a 6-bit Rx entity after construction and is delivered once. -/
theorem rx_discards_repeated_pdu :
    rx_delivered { sn_field_length := rlc_um_sn_size.size6bits, t_reassembly_ms := 5 }
      [{ si := rlc_si_field.full_sdu, sn := 0, so := 0, payload := [1, 2] },
       { si := rlc_si_field.full_sdu, sn := 0, so := 0, payload := [1, 2] }]
      = [[1, 2]] := by
  decide

/-- A segment that arrives a second time is discarded: the SDU `1, 2, 3` arrives in two
segments, the first of them twice, and is delivered once. -/
theorem rx_discards_repeated_segment :
    rx_delivered { sn_field_length := rlc_um_sn_size.size6bits, t_reassembly_ms := 5 }
      [{ si := rlc_si_field.first_segment, sn := 0, so := 0, payload := [1, 2] },
       { si := rlc_si_field.first_segment, sn := 0, so := 0, payload := [1, 2] },
       { si := rlc_si_field.last_segment, sn := 0, so := 2, payload := [3] },
       { si := rlc_si_field.last_segment, sn := 0, so := 2, payload := [3] }]
      = [[1, 2, 3]] := by
  decide

/-- An SDU completed out of SN order waits for the lower SN: the full SDU with SN 1 arrives
before the one with SN 0; nothing is delivered by the first PDU, and both SDUs, in SN
order, by the second. -/
theorem rx_releases_in_sn_order :
    (handle_pdu 64 32 rlc_rx_um_entity.initial
        { si := rlc_si_field.full_sdu, sn := 1, so := 0, payload := [8] }).1 = [] ∧
    rx_delivered { sn_field_length := rlc_um_sn_size.size6bits, t_reassembly_ms := 5 }
      [{ si := rlc_si_field.full_sdu, sn := 1, so := 0, payload := [8] },
       { si := rlc_si_field.full_sdu, sn := 0, so := 0, payload := [7] }]
      = [[7], [8]] := by
  decide

set_option maxRecDepth 1000000 in
/-- SN wraparound on a 6-bit SN field: 100 SDUs of one byte each, sent in PDUs of at most
4 bytes, are delivered in order, each once. -/
theorem um_wraparound_run :
    (tx_pdus { sn_field_length := rlc_um_sn_size.size6bits } 1 2
        ((List.range 100).map (fun i => [i])) 4).map
      (rx_delivered { sn_field_length := rlc_um_sn_size.size6bits, t_reassembly_ms := 5 })
      = some ((List.range 100).map (fun i => [i])) := by
  decide

end rlc_um_entity

end srsgnb
